import Mathlib

/-!
Verification of the `google-drive-invoice-analyzer` repository.

We shallowly embed the bespoke logic of the repository:
`pdf_processor.is_invoice`, `invoice_extractor.extract_invoice_data`
(the nine regular-expression rules, with Python `re` leftmost-match /
greedy-and-lazy backtracking semantics made explicit as ordered
candidate enumeration), and the state-passing parts of `server.py`
(`save_invoice_data`, `load_invoice_database`, `handle_new_files`,
`process_file`, `list_vendors`, `search_invoices`).

Strings are modelled as `List Char`; Python amounts (`float`) are
modelled as `ℚ`; the file system is modelled as an association list
from file name to stored JSON value.
-/

namespace InvoiceAnalyzer

/-- ASCII lower-casing of one character, modelling Python `str.lower`
on the ASCII texts manipulated here. -/
def lowerChar (c : Char) : Char :=
  if 'A' ≤ c ∧ c ≤ 'Z' then Char.ofNat (c.toNat + 32) else c

/-- Lower-case a whole string (as a character list). -/
def lowerStr (s : List Char) : List Char := s.map lowerChar

/-- Python's `needle in haystack` substring containment test. -/
def containsSub (needle : List Char) : List Char → Bool
  | [] => needle.isEmpty
  | c :: cs => needle.isPrefixOf (c :: cs) || containsSub needle cs

/-- The fixed keyword set of `PDFProcessor.is_invoice`
(`pdf_processor.py`, `invoice_indicators`). -/
def invoice_indicators : List (List Char) :=
  [ "invoice".data, "bill".data, "payment".data, "due date".data,
    "total amount".data, "invoice number".data, "invoice date".data,
    "billed to".data, "payment terms".data ]

/-- `PDFProcessor.is_invoice`: lower-case the text, count how many of the
nine fixed indicators occur as substrings, classify as invoice iff the
count is at least 3. -/
def is_invoice (text : List Char) : Bool :=
  3 ≤ (invoice_indicators.countP (fun ind => containsSub ind (lowerStr text)))

/-- Spec-side notion: the indicator `ind` is "present" in `text` by
case-insensitive substring containment. -/
def indicatorPresent (text ind : List Char) : Bool :=
  containsSub (lowerStr ind) (lowerStr text)

/-- Spec-side count of distinct present indicators from the fixed set. -/
def numIndicatorsPresent (text : List Char) : Nat :=
  (invoice_indicators.filter (indicatorPresent text)).length

/-!
## Regex semantics

A Python regex fragment is embedded as an ordered enumeration of the
ways it can consume a prefix of the input: the function returns the
possible remainders, listed in Python backtracking preference order
(head = tried first). Greedy pieces list longest consumption first,
lazy pieces shortest first, alternations left branch first. A whole
pattern's match is the head of its candidate list, and `re.search` is
the first input position whose candidate list is non-empty.
-/

/-- Ordered enumeration of remainders after a regex fragment. -/
abbrev REnum := List Char → List (List Char)

/-- A literal (case-sensitive): consumes exactly that string. -/
def litE (s : List Char) : REnum := fun cs =>
  if s.isPrefixOf cs then [cs.drop s.length] else []

/-- A case-insensitive literal (pattern compiled with `re.IGNORECASE`). -/
def litCIE (s : List Char) : REnum := fun cs =>
  if (lowerStr s).isPrefixOf (lowerStr cs) then [cs.drop s.length] else []

/-- Greedy `[class]*`: longest consumption first. -/
def classStarGreedy (p : Char → Bool) : REnum
  | [] => [[]]
  | c :: cs => if p c then classStarGreedy p cs ++ [c :: cs] else [c :: cs]

/-- Lazy `[class]*?` (e.g. `.*?`): shortest consumption first. -/
def classStarLazy (p : Char → Bool) : REnum
  | [] => [[]]
  | c :: cs => (c :: cs) :: (if p c then classStarLazy p cs else [])

/-- `[class]{n}`: exactly `n` characters of the class. -/
def classRep (p : Char → Bool) (n : Nat) : REnum := fun cs =>
  if (cs.take n).length = n ∧ (cs.take n).all p then [cs.drop n] else []

/-- Greedy `[class]{lo,hi}`: tries the longest repetition count first. -/
def classRange (p : Char → Bool) (lo hi : Nat) : REnum := fun cs =>
  ((List.range (hi + 1 - lo)).map (fun i => hi - i)).flatMap (fun k => classRep p k cs)

/-- `e?` (greedy option): presence tried before absence. -/
def optE (e : REnum) : REnum := fun cs => e cs ++ [cs]

/-- `a|b`: left alternative tried first. -/
def altE (a b : REnum) : REnum := fun cs => a cs ++ b cs

/-- Sequencing of two fragments. -/
def thenE (a b : REnum) : REnum := fun cs => (a cs).flatMap b

/-- Greedy `[class]+`: one character then a greedy star. -/
def classPlusGreedy (p : Char → Bool) : REnum :=
  thenE (classRep p 1) (classStarGreedy p)

/-- Pair each remainder of `e` with the prefix it consumed, giving the
text of a capturing group. -/
def withCap (e : REnum) (cs : List Char) : List (List Char × List Char) :=
  (e cs).map (fun r => (cs.take (cs.length - r.length), r))

/-- `re.search`: try to match at each position from the left, returning
the first position's result that succeeds. -/
def reSearch {α : Type} (m : List Char → Option α) : List Char → Option α
  | [] => m []
  | c :: t =>
    match m (c :: t) with
    | some x => some x
    | none => reSearch m t

/-- The language of a fragment: `EnumSpec e L` says `e` enumerates
exactly the remainders `r` such that the consumed prefix lies in `L`. -/
def EnumSpec (e : REnum) (L : List Char → Prop) : Prop :=
  ∀ cs r, r ∈ e cs ↔ ∃ w, cs = w ++ r ∧ L w

/-!
## Character classes used by `invoice_extractor.py`
-/

/-- Python `\s` (ASCII). -/
def isWS (c : Char) : Bool :=
  c = ' ' || c = '\t' || c = '\n' || c = '\r' || c = '\x0b' || c = '\x0c'

/-- The class `[:.\s]` that separates labels from values. -/
def isSepChar (c : Char) : Bool := c = ':' || c = '.' || isWS c

/-- Python `\d` (ASCII). -/
def isDigitChar (c : Char) : Bool := '0' ≤ c && c ≤ '9'

/-- The token class `[A-Za-z0-9\-]`. -/
def isAlnumHyphen (c : Char) : Bool :=
  ('a' ≤ c && c ≤ 'z') || ('A' ≤ c && c ≤ 'Z') || isDigitChar c || c = '-'

/-- The masked-card class `[Xx*]`. -/
def isMaskChar (c : Char) : Bool := c = 'X' || c = 'x' || c = '*'

/-- The date separator class: dash, slash, or dot. -/
def isDateSep (c : Char) : Bool := c = '-' || c = '/' || c = '.'

/-- The currency glyph class `[\$€£¥]`. -/
def isCurrencyGlyph (c : Char) : Bool := c = '$' || c = '€' || c = '£' || c = '¥'

/-- Python `.` without `re.DOTALL`: any character except a newline. -/
def isNotNL (c : Char) : Bool := c ≠ '\n'

/-- Python `str.strip()` (ASCII whitespace). -/
def pyStrip (s : List Char) : List Char :=
  ((s.dropWhile isWS).reverse.dropWhile isWS).reverse

/-!
## The nine extraction rules of `InvoiceExtractor.extract_invoice_data`
-/

/-- Label part of the invoice-number pattern:
`invoice\s*(?:#|number|num|no|nbr)[:.\s]*` (case-insensitive). -/
def invoiceNumberLabelE : REnum :=
  thenE (litCIE "invoice".data)
    (thenE (classStarGreedy isWS)
      (thenE (altE (litCIE "#".data)
        (altE (litCIE "number".data)
          (altE (litCIE "num".data)
            (altE (litCIE "no".data) (litCIE "nbr".data)))))
        (classStarGreedy isSepChar)))

/-- Match the invoice-number pattern at the current position, returning
the captured `[A-Za-z0-9\-]+` token. -/
def invoiceNumberAt (cs : List Char) : Option (List Char) :=
  (((invoiceNumberLabelE cs).flatMap
    (withCap (classPlusGreedy isAlnumHyphen))).head?).map Prod.fst

/-- Rule 1: `invoice.invoice_number` (captured token, then `.strip()`). -/
def invoice_number_rule (text : List Char) : Option (List Char) :=
  (reSearch invoiceNumberAt text).map pyStrip

/-- The shared date alternation: one-to-two digits, separator,
one-to-two digits, separator, two-to-four digits; or the mirrored form
with the two-to-four digit group leading. -/
def dateAltE : REnum :=
  altE
    (thenE (classRange isDigitChar 1 2)
      (thenE (classRep isDateSep 1)
        (thenE (classRange isDigitChar 1 2)
          (thenE (classRep isDateSep 1) (classRange isDigitChar 2 4)))))
    (thenE (classRange isDigitChar 2 4)
      (thenE (classRep isDateSep 1)
        (thenE (classRange isDigitChar 1 2)
          (thenE (classRep isDateSep 1) (classRange isDigitChar 1 2)))))

/-- Match `invoice\s*date[:.\s]*` followed by the date alternation. -/
def invoiceDateAt (cs : List Char) : Option (List Char) :=
  ((((thenE (litCIE "invoice".data)
      (thenE (classStarGreedy isWS)
        (thenE (litCIE "date".data) (classStarGreedy isSepChar)))) cs).flatMap
    (withCap dateAltE)).head?).map Prod.fst

/-- Rule 2a: `invoice.invoice_date`. -/
def invoice_date_rule (text : List Char) : Option (List Char) :=
  (reSearch invoiceDateAt text).map pyStrip

/-- Match `due\s*date[:.\s]*` followed by the date alternation. -/
def dueDateAt (cs : List Char) : Option (List Char) :=
  ((((thenE (litCIE "due".data)
      (thenE (classStarGreedy isWS)
        (thenE (litCIE "date".data) (classStarGreedy isSepChar)))) cs).flatMap
    (withCap dateAltE)).head?).map Prod.fst

/-- Rule 2b: `invoice.due_date`. -/
def due_date_rule (text : List Char) : Option (List Char) :=
  (reSearch dueDateAt text).map pyStrip

/-- `(?:,\d{3})*` (greedy): remainders after consuming zero or more
comma-plus-three-digit groups, most groups first. -/
def commaGroupsStarE : List Char → List (List Char)
  | c0 :: c1 :: c2 :: c3 :: rest =>
    if c0 = ',' && isDigitChar c1 && isDigitChar c2 && isDigitChar c3 then
      commaGroupsStarE rest ++ [c0 :: c1 :: c2 :: c3 :: rest]
    else [c0 :: c1 :: c2 :: c3 :: rest]
  | cs => [cs]

/-- The amount alternation
`\d{1,3}(?:,\d{3})*(?:\.\d{2})?|\d+(?:\.\d{2})?`. -/
def numAltE : REnum :=
  altE
    (thenE (classRange isDigitChar 1 3)
      (thenE commaGroupsStarE
        (optE (thenE (litE ".".data) (classRep isDigitChar 2)))))
    (thenE (classPlusGreedy isDigitChar)
      (optE (thenE (litE ".".data) (classRep isDigitChar 2))))

/-- Label part of the total-amount pattern:
`total\s*(?:amount|due)?[:.\s]*` (case-insensitive). -/
def totalLabelE : REnum :=
  thenE (litCIE "total".data)
    (thenE (classStarGreedy isWS)
      (thenE (optE (altE (litCIE "amount".data) (litCIE "due".data)))
        (classStarGreedy isSepChar)))

/-- `[\$€£¥]?` keeping track of which glyph (if any) was consumed:
this decides `invoice.currency`, because the glyph slot is the only
place a currency character can occur inside the full match. -/
def glyphOptE : List Char → List (Option Char × List Char)
  | [] => [(none, [])]
  | c :: t => if isCurrencyGlyph c then [(some c, t), (none, c :: t)] else [(none, c :: t)]

/-- Match the total-amount pattern at the current position, returning
the consumed glyph (if any) and the captured numeric token. -/
def totalAt (cs : List Char) : Option (Option Char × List Char) :=
  ((totalLabelE cs).flatMap (fun r1 =>
    (glyphOptE r1).flatMap (fun gr =>
      ((classStarGreedy isWS) gr.2).flatMap (fun r3 =>
        (withCap numAltE r3).map (fun capr => (gr.1, capr.1)))))).head?

/-- Rule 3a: `invoice.total_amount` (captured token, then `.strip()`). -/
def total_amount_rule (text : List Char) : Option (List Char) :=
  (reSearch totalAt text).map (fun gc => pyStrip gc.2)

/-- Currency name for a glyph, following the if/elif chain in the source. -/
def currencyOfGlyph : Option Char → Option (List Char)
  | some '$' => some "USD".data
  | some '€' => some "EUR".data
  | some '£' => some "GBP".data
  | some '¥' => some "JPY".data
  | _ => none

/-- Rule 3b: `invoice.currency`, inferred from the glyph of the first
total-amount match. -/
def currency_rule (text : List Char) : Option (List Char) :=
  match reSearch totalAt text with
  | some (g, _) => currencyOfGlyph g
  | none => none

/-- Match `from[:.\s]*(.*?)\n\n` (case-insensitive, `re.DOTALL`) at the
current position, returning the lazily captured block. -/
def fromSectionAt (cs : List Char) : Option (List Char) :=
  ((((thenE (litCIE "from".data) (classStarGreedy isSepChar)) cs).flatMap
    (fun r1 => (withCap (classStarLazy (fun _ => true)) r1).flatMap
      (fun capr => ((litE "\n\n".data) capr.2).map (fun _ => capr.1)))).head?)

/-- Python `str.split(sep)` for a single-character separator: always
returns a non-empty list. -/
def splitOnChar (sep : Char) (s : List Char) : List (List Char) :=
  match s with
  | [] => [[]]
  | c :: t =>
    match splitOnChar sep t with
    | [] => [[]]
    | l :: ls => if c = sep then [] :: l :: ls else (c :: l) :: ls

/-- Python `'\n'.join`. -/
def joinNewline : List (List Char) → List Char
  | [] => []
  | [l] => l
  | l :: ls => l ++ '\n' :: joinNewline ls

/-- Rule 4: vendor name and address. The captured `from` block is
stripped and split on newlines; the first line is the vendor name and
the remaining lines, joined, are the address (both stripped). -/
def vendor_rule (text : List Char) : Option (List Char × List Char) :=
  (reSearch fromSectionAt text).map (fun cap =>
    match splitOnChar '\n' (pyStrip cap) with
    | [] => ([], [])
    | l :: ls => (pyStrip l, pyStrip (joinNewline ls)))

/-- Label part of the license pattern:
`licen[sc]e\s*(?:number|#|key)?[:.\s]*` (case-insensitive). -/
def licenseLabelE : REnum :=
  thenE (litCIE "licen".data)
    (thenE (classRep (fun c => lowerChar c = 's' || lowerChar c = 'c') 1)
      (thenE (litCIE "e".data)
        (thenE (classStarGreedy isWS)
          (thenE (optE (altE (litCIE "number".data)
            (altE (litCIE "#".data) (litCIE "key".data))))
            (classStarGreedy isSepChar)))))

/-- Match the license pattern at the current position, returning the
captured token together with the length of the whole match (used to
resume `findall` scanning after the match end). -/
def licenseAt (cs : List Char) : Option (List Char × Nat) :=
  (((licenseLabelE cs).flatMap
    (withCap (classPlusGreedy isAlnumHyphen))).head?).map
    (fun capr => (capr.1, cs.length - capr.2.length))

/-- `re.findall` scanning: try to match at each position from the left;
after a match, resume scanning at the match end (the second component
counts positions still to skip). -/
def licenseScan : List Char → Nat → List (List Char)
  | [], _ => []
  | _ :: t, skip + 1 => licenseScan t skip
  | c :: t, 0 =>
    match licenseAt (c :: t) with
    | some (cap, consumed) => cap :: licenseScan t (consumed - 1)
    | none => licenseScan t 0

/-- Rule 5: `invoice.license_info` via `re.findall` (all non-overlapping
matches, in order, duplicates kept). -/
def license_info_rule (text : List Char) : List (List Char) :=
  licenseScan text 0

/-- Match `payment\s*method[:.\s]*(.*?)\n` (case-insensitive) at the
current position. -/
def paymentMethodAt (cs : List Char) : Option (List Char) :=
  ((((thenE (litCIE "payment".data)
      (thenE (classStarGreedy isWS)
        (thenE (litCIE "method".data) (classStarGreedy isSepChar)))) cs).flatMap
    (fun r1 => (withCap (classStarLazy isNotNL) r1).flatMap
      (fun capr => ((litE "\n".data) capr.2).map (fun _ => capr.1)))).head?)

/-- Rule 6: `payment_info['method']`. -/
def payment_method_rule (text : List Char) : Option (List Char) :=
  (reSearch paymentMethodAt text).map pyStrip

/-- Match `(?:credit|card).*?([Xx*]{12,15}\d{4})` (case-sensitive, no
`re.DOTALL`) at the current position, returning the captured group. -/
def cardAt (cs : List Char) : Option (List Char) :=
  ((((thenE (altE (litE "credit".data) (litE "card".data))
      (classStarLazy isNotNL)) cs).flatMap
    (withCap (thenE (classRange isMaskChar 12 15) (classRep isDigitChar 4)))).head?).map
    Prod.fst

/-- Rule 7: `payment_info['card']` (no `.strip()` in the source). -/
def card_rule (text : List Char) : Option (List Char) :=
  reSearch cardAt text

/-- Match `P\.?O\.?\s*(?:#|number)?[:.\s]*([A-Za-z0-9\-]+)`
(case-insensitive) at the current position. -/
def poAt (cs : List Char) : Option (List Char) :=
  (((thenE (litCIE "P".data)
      (thenE (optE (litE ".".data))
        (thenE (litCIE "O".data)
          (thenE (optE (litE ".".data))
            (thenE (classStarGreedy isWS)
              (thenE (optE (altE (litCIE "#".data) (litCIE "number".data)))
                (classStarGreedy isSepChar)))))) cs).flatMap
    (withCap (classPlusGreedy isAlnumHyphen))).head?).map Prod.fst

/-- Rule 8: `invoice.po_number`. -/
def po_number_rule (text : List Char) : Option (List Char) :=
  (reSearch poAt text).map pyStrip

/-- Match `(?:payment\s*)?terms[:.\s]*(.*?)\n` (case-insensitive) at the
current position. -/
def termsAt (cs : List Char) : Option (List Char) :=
  ((((thenE (optE (thenE (litCIE "payment".data) (classStarGreedy isWS)))
      (thenE (litCIE "terms".data) (classStarGreedy isSepChar))) cs).flatMap
    (fun r1 => (withCap (classStarLazy isNotNL) r1).flatMap
      (fun capr => ((litE "\n".data) capr.2).map (fun _ => capr.1)))).head?)

/-- Rule 9: `invoice.payment_terms`. -/
def payment_terms_rule (text : List Char) : Option (List Char) :=
  (reSearch termsAt text).map pyStrip

/-!
## `InvoiceData` and the extractor
-/

/-- The `payment_info` dictionary: its only possible keys in the source
are `'method'` and `'card'`, modelled as two optional fields (`none`
means the key is absent; both `none` is the empty mapping). -/
structure PaymentInfo where
  method : Option (List Char) := none
  card : Option (List Char) := none
deriving DecidableEq, Repr

/-- `InvoiceData.__init__`: all fields default to `None` / `[]` / `{}`. -/
structure InvoiceData where
  invoice_number : Option (List Char) := none
  invoice_date : Option (List Char) := none
  due_date : Option (List Char) := none
  vendor_name : Option (List Char) := none
  vendor_address : Option (List Char) := none
  billed_to : Option (List Char) := none
  total_amount : Option (List Char) := none
  subtotal : Option (List Char) := none
  tax_amount : Option (List Char) := none
  line_items : List (List Char) := []
  payment_terms : Option (List Char) := none
  license_info : List (List Char) := []
  payment_info : PaymentInfo := {}
  currency : Option (List Char) := none
  po_number : Option (List Char) := none
  raw_text : Option (List Char) := none
deriving DecidableEq, Repr

/-- `InvoiceExtractor.extract_invoice_data`: run the nine independent
rules over the full text; a rule that does not match leaves its field at
the default. Total by construction (the Python code cannot raise). -/
def extract_invoice_data (text : List Char) : InvoiceData :=
  { raw_text := some text
    invoice_number := invoice_number_rule text
    invoice_date := invoice_date_rule text
    due_date := due_date_rule text
    total_amount := total_amount_rule text
    currency := currency_rule text
    vendor_name := (vendor_rule text).map Prod.fst
    vendor_address := (vendor_rule text).map Prod.snd
    license_info := license_info_rule text
    payment_info :=
      { method := payment_method_rule text
        card := card_rule text }
    po_number := po_number_rule text
    payment_terms := payment_terms_rule text }

/-!
## Persisted JSON values and the record store (`server.py`)
-/

/-- The dictionary produced by `InvoiceData.to_dict` (all fields except
`raw_text`). -/
structure InvoiceDict where
  invoice_number : Option (List Char) := none
  invoice_date : Option (List Char) := none
  due_date : Option (List Char) := none
  vendor_name : Option (List Char) := none
  vendor_address : Option (List Char) := none
  billed_to : Option (List Char) := none
  total_amount : Option (List Char) := none
  subtotal : Option (List Char) := none
  tax_amount : Option (List Char) := none
  line_items : List (List Char) := []
  payment_terms : Option (List Char) := none
  license_info : List (List Char) := []
  payment_info : PaymentInfo := {}
  currency : Option (List Char) := none
  po_number : Option (List Char) := none
deriving DecidableEq, Repr

/-- `InvoiceData.to_dict`. -/
def to_dict (i : InvoiceData) : InvoiceDict :=
  { invoice_number := i.invoice_number
    invoice_date := i.invoice_date
    due_date := i.due_date
    vendor_name := i.vendor_name
    vendor_address := i.vendor_address
    billed_to := i.billed_to
    total_amount := i.total_amount
    subtotal := i.subtotal
    tax_amount := i.tax_amount
    line_items := i.line_items
    payment_terms := i.payment_terms
    license_info := i.license_info
    payment_info := i.payment_info
    currency := i.currency
    po_number := i.po_number }

/-- The metadata companion object written by `handle_new_files`. -/
structure MetadataDict where
  raw_text : List Char
  file_name : List Char
  file_id : List Char
  processed_date : List Char
deriving DecidableEq, Repr

/-- A JSON value stored in a file of `invoice_data/`: either a
structured invoice record or a companion metadata object. -/
inductive StoredJson where
  | record (d : InvoiceDict)
  | metadata (m : MetadataDict)
deriving DecidableEq, Repr

/-- Association-list lookup (Python dict access; keys are unique
because updates replace in place). -/
def lookupAssoc {α : Type} : List (List Char × α) → List Char → Option α
  | [], _ => none
  | (k, v) :: t, key => if k = key then some v else lookupAssoc t key

/-- Association-list update with Python-dict semantics: replace in
place if the key exists, else append (insertion order preserved). -/
def updateAssoc {α : Type} : List (List Char × α) → List Char → α → List (List Char × α)
  | [], k, v => [(k, v)]
  | (k', v') :: t, k, v =>
    if k' = k then (k, v) :: t else (k', v') :: updateAssoc t k v

/-- The server's mutable state: the in-memory `processed_files` set and
`invoice_database` dict, and the `invoice_data/` directory as a mapping
from file name to stored JSON value. -/
structure ServerState where
  processed_files : List (List Char)
  invoice_database : List (List Char × StoredJson)
  disk : List (List Char × StoredJson)
deriving DecidableEq, Repr

/-- `save_invoice_data`: write `<invoice_id>.json` and update the
in-memory mapping. -/
def save_invoice_data (invoice_id : List Char) (data : InvoiceDict)
    (st : ServerState) : ServerState :=
  { st with
    disk := updateAssoc st.disk (invoice_id ++ ".json".data) (.record data)
    invoice_database := updateAssoc st.invoice_database invoice_id (.record data) }

/-- `load_invoice_database` run from scratch (fresh process): for every
file of the store directory matching the glob `*.json`, key the parsed
contents by the file's stem (name minus the final `.json`). -/
def load_invoice_database (disk : List (List Char × StoredJson)) :
    List (List Char × StoredJson) :=
  disk.foldl
    (fun db entry =>
      if ".json".data.isSuffixOf entry.1 then
        updateAssoc db (entry.1.take (entry.1.length - 5)) entry.2
      else db)
    []

/-- A Google Drive file as the pipeline sees it: its listed name and
MIME type, and the text that `pdf_processor.extract_text` yields from
its downloaded bytes (download and PDF parsing are external
collaborators, modelled as a total environment). -/
structure DriveFile where
  name : List Char
  mimeType : List Char
  text : List Char
deriving DecidableEq, Repr

/-- A `files` listing entry passed to `handle_new_files`. -/
structure FileInfo where
  id : List Char
  name : List Char
  mimeType : List Char
deriving DecidableEq, Repr

/-- `invoice_data.invoice_number or f"inv_..."`: Python `or` falls
through on falsy values, so both `None` and the empty string yield the
synthesized id. -/
def derivedId (invNum : Option (List Char)) (fid : List Char) : List Char :=
  match invNum with
  | some s => if s = [] then "inv_".data ++ fid else s
  | none => "inv_".data ++ fid

/-- `processed_files.add` (a no-op when already present). -/
def addProcessed (st : ServerState) (fid : List Char) : ServerState :=
  if st.processed_files.contains fid then st
  else { st with processed_files := st.processed_files ++ [fid] }

/-- One iteration of the `handle_new_files` loop body. Returns the new
state together with the list of file ids downloaded (observability of
`drive_client.download_file` calls). -/
def handleOneFile (env : List Char → DriveFile) (now : List Char)
    (st : ServerState) (f : FileInfo) : ServerState × List (List Char) :=
  if st.processed_files.contains f.id then (st, [])
  else if f.mimeType ≠ "application/pdf".data then (st, [])
  else
    let text := (env f.id).text
    if is_invoice text then
      let inv := extract_invoice_data text
      let iid := derivedId inv.invoice_number f.id
      let st1 := save_invoice_data iid (to_dict inv) st
      let st2 := { st1 with
        disk := updateAssoc st1.disk (iid ++ "_metadata.json".data)
          (.metadata { raw_text := text, file_name := f.name,
                       file_id := f.id, processed_date := now }) }
      (addProcessed st2 f.id, [f.id])
    else (addProcessed st f.id, [f.id])

/-- `handle_new_files`: process the listed files in order. -/
def handle_new_files (env : List Char → DriveFile) (now : List Char)
    (st : ServerState) (files : List FileInfo) : ServerState × List (List Char) :=
  files.foldl
    (fun acc f =>
      let r := handleOneFile env now acc.1 f
      (r.1, acc.2 ++ r.2))
    (st, [])

/-- `process_file`: fetch the file info, check the MIME type, download,
extract, classify, and save — with no check of `processed_files` and no
metadata write. Returns the new state, the ids downloaded, and the
returned message. -/
def process_file (env : List Char → DriveFile) (st : ServerState)
    (fid : List Char) : ServerState × List (List Char) × List Char :=
  let f := env fid
  if f.mimeType ≠ "application/pdf".data then
    (st, [], "This file is not a PDF.".data)
  else
    let text := f.text
    if ¬ is_invoice text then
      (st, [fid], "This PDF does not appear to be an invoice.".data)
    else
      let inv := extract_invoice_data text
      let iid := derivedId inv.invoice_number fid
      let st1 := save_invoice_data iid (to_dict inv) st
      (addProcessed st1 fid, [fid],
        "Successfully processed invoice ".data ++ iid ++ " from file ".data ++ f.name)

/-!
## Query layer: vendor aggregation and search
-/

/-- `data.get("vendor_name")`: present only on record-shaped values. -/
def getVendorName : StoredJson → Option (List Char)
  | .record d => d.vendor_name
  | .metadata _ => none

/-- `data.get("total_amount")`. -/
def getTotalAmount : StoredJson → Option (List Char)
  | .record d => d.total_amount
  | .metadata _ => none

/-- `data.get("invoice_date")`. -/
def getInvoiceDate : StoredJson → Option (List Char)
  | .record d => d.invoice_date
  | .metadata _ => none

/-- `str.replace(",", "")`. -/
def removeCommas (s : List Char) : List Char := s.filter (fun c => c ≠ ',')

/-- Accumulated digit value of a digit string. -/
def digitsVal (l : List Char) : Nat :=
  l.foldl (fun a c => a * 10 + (c.toNat - 48)) 0

/-- Mantissa of a Python float literal: `digits`, `digits.digits`,
`.digits`, or `digits.` (at least one digit overall). -/
def pyFloatMantissa (m : List Char) : Option ℚ :=
  match splitOnChar '.' m with
  | [i] => if i ≠ [] ∧ i.all isDigitChar then some (digitsVal i) else none
  | [i, f] =>
    if (i ++ f) ≠ [] ∧ i.all isDigitChar ∧ f.all isDigitChar then
      some ((digitsVal i : ℚ) + (digitsVal f : ℚ) / ((10 : ℚ) ^ f.length))
    else none
  | _ => none

/-- Signed integer exponent of a Python float literal. -/
def pyFloatExp (ex : List Char) : Option Int :=
  match ex with
  | '+' :: r => if r ≠ [] ∧ r.all isDigitChar then some (digitsVal r) else none
  | '-' :: r => if r ≠ [] ∧ r.all isDigitChar then some (-(digitsVal r : Int)) else none
  | r => if r ≠ [] ∧ r.all isDigitChar then some (digitsVal r) else none

/-- Unsigned part of Python `float(str)`: mantissa with optional
exponent. -/
def pyFloatCore (l : List Char) : Option ℚ :=
  match splitOnChar 'e' l with
  | [m] => pyFloatMantissa m
  | [m, ex] =>
    (pyFloatMantissa m).bind (fun q =>
      (pyFloatExp ex).map (fun e => q * (10 : ℚ) ^ e))
  | _ => none

/-- Python `float(str)` on the decimal shapes that occur here: strip
whitespace, optional sign, mantissa, optional exponent. (The exotic
accepted shapes `inf`, `nan` and digit underscores are not modelled;
no claim depends on them.) Returns `none` where Python raises
`ValueError`. -/
def pyFloat (s : List Char) : Option ℚ :=
  match lowerStr (pyStrip s) with
  | '+' :: r => pyFloatCore r
  | '-' :: r => (pyFloatCore r).map Neg.neg
  | r => pyFloatCore r

/-- Per-vendor accumulator of `list_vendors`. -/
structure VendorStats where
  invoice_count : Nat
  total_spend : ℚ
deriving DecidableEq, Repr

/-- One iteration of the `list_vendors` loop: skip entries whose
`vendor_name` is falsy; count the rest; add the parsed amount when the
amount is truthy and parses, else leave the sum unchanged. -/
def vendorStep (vendors : List (List Char × VendorStats))
    (entry : List Char × StoredJson) : List (List Char × VendorStats) :=
  match getVendorName entry.2 with
  | none => vendors
  | some v =>
    if v = [] then vendors
    else
      let cur := (lookupAssoc vendors v).getD ⟨0, 0⟩
      let cnt : VendorStats := { cur with invoice_count := cur.invoice_count + 1 }
      let upd : VendorStats :=
        match getTotalAmount entry.2 with
        | none => cnt
        | some a =>
          if a = [] then cnt
          else
            match pyFloat (removeCommas a) with
            | some q => { cnt with total_spend := cnt.total_spend + q }
            | none => cnt
      updateAssoc vendors v upd

/-- The `vendors` dictionary built by `list_vendors`. -/
def vendorsAgg (db : List (List Char × StoredJson)) :
    List (List Char × VendorStats) :=
  db.foldl vendorStep []

/-- `list_vendors` output: the keys of the aggregation. -/
def list_vendors (db : List (List Char × StoredJson)) : List (List Char) :=
  (vendorsAgg db).map Prod.fst

/-- Gregorian leap year (as validated by `datetime`). -/
def isLeap (y : Nat) : Bool := (y % 4 = 0 ∧ y % 100 ≠ 0) ∨ y % 400 = 0

/-- Days in a month (as validated by `datetime`). -/
def daysInMonth (y m : Nat) : Nat :=
  if m = 2 then (if isLeap y then 29 else 28)
  else if m = 4 ∨ m = 6 ∨ m = 9 ∨ m = 11 then 30
  else 31

/-- `datetime.strptime(s, "%m/%d/%Y")`: month and day of one or two
digits, year of exactly four digits (CPython's `%Y` pattern),
slash-separated, validated as a real calendar date; `none` where Python
raises `ValueError`. -/
def parseDateMDY (s : List Char) : Option (Nat × Nat × Nat) :=
  match splitOnChar '/' s with
  | [m, d, y] =>
    if 1 ≤ m.length ∧ m.length ≤ 2 ∧ m.all isDigitChar ∧
        1 ≤ d.length ∧ d.length ≤ 2 ∧ d.all isDigitChar ∧
        y.length = 4 ∧ y.all isDigitChar then
      let mv := digitsVal m
      let dv := digitsVal d
      let yv := digitsVal y
      if 1 ≤ yv ∧ 1 ≤ mv ∧ mv ≤ 12 ∧ 1 ≤ dv ∧ dv ≤ daysInMonth yv mv then
        some (yv, mv, dv)
      else none
    else none
  | _ => none

/-- `datetime` comparison on (year, month, day). -/
def dateLt (a b : Nat × Nat × Nat) : Bool :=
  a.1 < b.1 ∨ (a.1 = b.1 ∧ (a.2.1 < b.2.1 ∨ (a.2.1 = b.2.1 ∧ a.2.2 < b.2.2)))

/-- The optional filter arguments of `search_invoices`. -/
structure SearchParams where
  vendor : Option (List Char) := none
  min_amount : Option ℚ := none
  max_amount : Option ℚ := none
  start_date : Option (List Char) := none
  end_date : Option (List Char) := none
  keyword : Option (List Char) := none

/-- Python truthiness of an optional string (`None` and `""` falsy). -/
def truthyStr : Option (List Char) → Bool
  | some s => s ≠ []
  | none => false

/-- The vendor filter branch of `search_invoices`. -/
def vendorClause (params : SearchParams) (e : StoredJson) : Bool :=
  match params.vendor with
  | none => true
  | some v => if v = [] then true else getVendorName e = some v

/-- The amount-range filter branch of `search_invoices`: skipped
entirely when the stored amount is falsy; a stored amount that fails to
parse fails the filter whenever a bound is supplied. -/
def amountClause (params : SearchParams) (e : StoredJson) : Bool :=
  match getTotalAmount e with
  | none => true
  | some a =>
    if a ≠ [] ∧ (params.min_amount.isSome ∨ params.max_amount.isSome) then
      match pyFloat (removeCommas a) with
      | some q =>
        (match params.min_amount with
         | some mn => !(q < mn)
         | none => true) &&
        (match params.max_amount with
         | some mx => !(mx < q)
         | none => true)
      | none => false
    else true

/-- The date-range filter branch of `search_invoices`: skipped when the
stored date is falsy or no bound is supplied; any `strptime` failure
(stored date or bound) fails the filter. -/
def dateClause (params : SearchParams) (e : StoredJson) : Bool :=
  match getInvoiceDate e with
  | none => true
  | some ds =>
    if ds ≠ [] ∧ (truthyStr params.start_date ∨ truthyStr params.end_date) then
      match parseDateMDY ds with
      | none => false
      | some d =>
        (if truthyStr params.start_date then
          match parseDateMDY (params.start_date.getD []) with
          | none => false
          | some s => !(dateLt d s)
         else true) &&
        (if truthyStr params.end_date then
          match parseDateMDY (params.end_date.getD []) with
          | none => false
          | some en => !(dateLt en d)
         else true)
    else true

/-- `metadata.get("raw_text", "")` on a loaded metadata file. -/
def rawTextOf : StoredJson → List Char
  | .metadata m => m.raw_text
  | .record _ => []

/-- The keyword filter branch of `search_invoices`: reads the record's
companion metadata file from disk; a record with no metadata file
cannot match. -/
def keywordClause (params : SearchParams) (disk : List (List Char × StoredJson))
    (invoice_id : List Char) : Bool :=
  match params.keyword with
  | none => true
  | some k =>
    if k = [] then true
    else
      match lookupAssoc disk (invoice_id ++ "_metadata.json".data) with
      | some content => containsSub (lowerStr k) (lowerStr (rawTextOf content))
      | none => false

/-- The summary dict appended for each match (`dict.get` with a default
returns the stored value — possibly Python `None` — whenever the key is
present, and the default only when it is absent). -/
structure SearchHit where
  id : List Char
  vendor : Option (List Char)
  date : Option (List Char)
  amount : Option (List Char)
  currency : Option (List Char)
deriving DecidableEq, Repr

/-- Build the summary for a matching entry. -/
def mkSearchHit (invoice_id : List Char) : StoredJson → SearchHit
  | .record d =>
    { id := invoice_id, vendor := d.vendor_name, date := d.invoice_date,
      amount := d.total_amount, currency := d.currency }
  | .metadata _ =>
    { id := invoice_id, vendor := some "Unknown".data, date := some "Unknown".data,
      amount := some "Unknown".data, currency := some "USD".data }

/-- Whether one database entry passes all four (conjunctive) filters. -/
def searchMatch (params : SearchParams) (disk : List (List Char × StoredJson))
    (invoice_id : List Char) (e : StoredJson) : Bool :=
  vendorClause params e && amountClause params e && dateClause params e &&
    keywordClause params disk invoice_id

/-- `search_invoices`: linear scan over the in-memory mapping, keeping
the entries that pass every supplied filter. -/
def search_invoices (db disk : List (List Char × StoredJson))
    (params : SearchParams) : List SearchHit :=
  db.filterMap (fun ie =>
    if searchMatch params disk ie.1 ie.2 then some (mkSearchHit ie.1 ie.2) else none)

/-!
## Spec-side shape predicates (written from the spec's wording, to be
compared with the matchers embedded from the source regexes)

These are executable decomposition searches: `starThen p k cs` asks
whether `cs` splits as a (possibly empty) run of `p`-characters
followed by a remainder satisfying `k`, and so on. They exist so that
the claims about the *shape* of the extraction rules can be stated
independently of the candidate-enumeration embedding of the code.
-/

/-- The language of zero or more thousands groups: each group is a
comma followed by exactly three digits. -/
inductive CommaGroupsL : List Char → Prop
  | nil : CommaGroupsL []
  | group (d1 d2 d3 : Char) (w : List Char) :
      isDigitChar d1 = true → isDigitChar d2 = true → isDigitChar d3 = true →
      CommaGroupsL w → CommaGroupsL (',' :: d1 :: d2 :: d3 :: w)

/-- Does some suffix of the text satisfy `k`? ("the text contains,
anywhere, ..."). -/
def anySuffix (k : List Char → Bool) : List Char → Bool
  | [] => k []
  | c :: t => k (c :: t) || anySuffix k t

/-- Does `cs` split as a run of `p`-characters followed by a remainder
satisfying `k`? -/
def starThen (p : Char → Bool) (k : List Char → Bool) : List Char → Bool
  | [] => k []
  | c :: t => k (c :: t) || (p c && starThen p k t)

/-- Case-insensitive literal prefix. -/
def ciPrefix (s cs : List Char) : Bool := (lowerStr s).isPrefixOf (lowerStr cs)

/-- Optional currency glyph: either one glyph then `k`, or `k` here. -/
def optGlyphThen (k : List Char → Bool) (cs : List Char) : Bool :=
  (match cs with
   | c :: t => isCurrencyGlyph c && k t
   | [] => false) || k cs

/-- Zero or more well-formed thousands groups (a comma followed by
exactly three digits) followed by a remainder satisfying `k`. -/
def commaGroupsThen (k : List Char → Bool) : List Char → Bool
  | c0 :: c1 :: c2 :: c3 :: rest =>
    if c0 = ',' && isDigitChar c1 && isDigitChar c2 && isDigitChar c3 then
      k (c0 :: c1 :: c2 :: c3 :: rest) || commaGroupsThen k rest
    else k (c0 :: c1 :: c2 :: c3 :: rest)
  | cs => k cs

/-- A decimal point with exactly two digits starts here. -/
def twoDecimalsAt (cs : List Char) : Bool :=
  3 ≤ cs.length && ['.'].isPrefixOf cs && ((cs.drop 1).take 2).all isDigitChar

/-- An optional two-decimal part followed by a remainder satisfying
`k`. -/
def optTwoDecimalsThen (k : List Char → Bool) (cs : List Char) : Bool :=
  (twoDecimalsAt cs && k (cs.drop 3)) || k cs

/-- The language of the numeric token captured by the total-amount rule
(amended claim): one-to-three digits followed by thousands groups, or a
plain non-empty digit run (with no groups); then an optional two-digit
decimal part. -/
def NumberL (w : List Char) : Prop :=
  ∃ intpart grouppart decpart,
    w = intpart ++ grouppart ++ decpart ∧
    ((1 ≤ intpart.length ∧ intpart.length ≤ 3 ∧ intpart.all isDigitChar = true ∧
        CommaGroupsL grouppart) ∨
      (1 ≤ intpart.length ∧ intpart.all isDigitChar = true ∧ grouppart = [])) ∧
    ((∃ a b : Char, decpart = ['.', a, b] ∧ isDigitChar a = true ∧ isDigitChar b = true) ∨
      decpart = [])

/-- A number in the sense of the total-amount rule begins here:
one-to-three digits with zero or more comma-separated thousands
groups, or a plain digit run; followed by an optional two-decimal
part. -/
def numberAt (cs : List Char) : Bool :=
  ((List.range' 1 3).any fun k =>
    (cs.take k).length = k && (cs.take k).all isDigitChar &&
      commaGroupsThen (optTwoDecimalsThen (fun _ => true)) (cs.drop k)) ||
  (match cs with
   | c :: t =>
     isDigitChar c && starThen isDigitChar (optTwoDecimalsThen (fun _ => true)) t
   | [] => false)

/-- A number as above but with the two-decimal part *required* — the
original claim's reading ("exactly two decimal places"). -/
def numberStrictAt (cs : List Char) : Bool :=
  ((List.range' 1 3).any fun k =>
    (cs.take k).length = k && (cs.take k).all isDigitChar &&
      commaGroupsThen twoDecimalsAt (cs.drop k)) ||
  (match cs with
   | c :: t => isDigitChar c && starThen isDigitChar twoDecimalsAt t
   | [] => false)

/-- After the optional `amount`/`due`: separator characters, an
optional currency glyph, whitespace, then a number. -/
def totalNumPart : List Char → Bool :=
  starThen isSepChar (optGlyphThen (starThen isWS numberAt))

/-- After the label `total` and whitespace: an optional `amount` or
`due`, then the separator/glyph/number part. -/
def totalAfterLabel (s1 : List Char) : Bool :=
  (ciPrefix "amount".data s1 && totalNumPart (s1.drop 6)) ||
  (ciPrefix "due".data s1 && totalNumPart (s1.drop 3)) ||
  totalNumPart s1

/-- The spec shape of the total-amount rule (amended: decimals
optional): the text contains the label `total`, optionally followed by
`amount` or `due`, then separators, an optional currency glyph,
whitespace, and a number. -/
def specTotalShape (text : List Char) : Bool :=
  anySuffix (fun s =>
    ciPrefix "total".data s && starThen isWS totalAfterLabel (s.drop 5)) text

/-- As `totalNumPart` but with the strict number shape. -/
def totalNumPartStrict : List Char → Bool :=
  starThen isSepChar (optGlyphThen (starThen isWS numberStrictAt))

/-- As `totalAfterLabel` but with the strict number shape. -/
def totalAfterLabelStrict (s1 : List Char) : Bool :=
  (ciPrefix "amount".data s1 && totalNumPartStrict (s1.drop 6)) ||
  (ciPrefix "due".data s1 && totalNumPartStrict (s1.drop 3)) ||
  totalNumPartStrict s1

/-- The spec shape of the total-amount rule exactly as the claim
states it (two decimal places required). -/
def specTotalShapeStrict (text : List Char) : Bool :=
  anySuffix (fun s =>
    ciPrefix "total".data s && starThen isWS totalAfterLabelStrict (s.drop 5)) text

/-- A run of 12 to 15 mask characters immediately followed by 4 digits
begins here. -/
def maskRunThenDigitsAt (cs : List Char) : Bool :=
  (List.range' 12 4).any fun k =>
    (cs.take k).length = k && (cs.take k).all isMaskChar &&
      ((cs.drop k).take 4).length = 4 && ((cs.drop k).take 4).all isDigitChar

/-- The original claim's card shape: such a run occurs anywhere in the
text, with no prefix requirement. -/
def specCardShapeNoPrefix (text : List Char) : Bool :=
  anySuffix maskRunThenDigitsAt text

/-- Some same-line stretch (no newline) followed by a mask run. -/
def sameLineThenRun : List Char → Bool :=
  starThen isNotNL maskRunThenDigitsAt

/-- The amended card shape: a lowercase `credit` or `card` occurs in
the text, followed on the same line by a run of 12-15 mask characters
immediately followed by 4 digits. -/
def specCardShapeWithPrefix (text : List Char) : Bool :=
  anySuffix (fun s =>
    ("credit".data.isPrefixOf s && sameLineThenRun (s.drop 6)) ||
    ("card".data.isPrefixOf s && sameLineThenRun (s.drop 4))) text

end InvoiceAnalyzer

namespace InvoiceAnalyzer

/-- Each fixed indicator is already lower-case, so lower-casing it is
the identity; hence the spec-side presence test agrees with the code's. -/
theorem indicatorPresent_eq (text : List Char) (ind : List Char)
    (h : ind ∈ invoice_indicators) :
    indicatorPresent text ind = containsSub ind (lowerStr text) := by
  fin_cases h <;> rfl

theorem numIndicatorsPresent_eq (text : List Char) :
    numIndicatorsPresent text
      = invoice_indicators.countP (fun ind => containsSub ind (lowerStr text)) := by
  rw [numIndicatorsPresent, List.countP_eq_length_filter]
  exact congrArg List.length (List.filter_congr (fun ind h => indicatorPresent_eq text ind h))

/-- C5. Classifier threshold: for every text, `is_invoice` returns
`false` when zero of the nine fixed indicators are present
(case-insensitive substring containment), and returns `true` whenever
at least 3 distinct indicators are present. -/
theorem C5_is_invoice_threshold (text : List Char) :
    (numIndicatorsPresent text = 0 → is_invoice text = false) ∧
    (3 ≤ numIndicatorsPresent text → is_invoice text = true) := by
  constructor
  · intro h0
    rw [numIndicatorsPresent_eq] at h0
    simp [is_invoice, h0]
  · intro h3
    rw [numIndicatorsPresent_eq] at h3
    simp [is_invoice]
    omega

/-- Witness for C5 at concrete inputs: the empty text has zero present
indicators (hence classified `false`), and a text containing three
indicators is classified `true`. -/
theorem C5_is_invoice_threshold_witness :
    (numIndicatorsPresent "".data = 0 ∧ is_invoice "".data = false) ∧
    (3 ≤ numIndicatorsPresent "Invoice, bill: payment".data ∧
      is_invoice "Invoice, bill: payment".data = true) := by
  refine ⟨⟨by decide, (C5_is_invoice_threshold "".data).1 (by decide)⟩,
    ⟨by decide, (C5_is_invoice_threshold "Invoice, bill: payment".data).2 (by decide)⟩⟩

/-- C4. Totality of extraction: `extract_invoice_data` is a total
function (the shallow embedding is a Lean `def`, mirroring that the
Python code cannot raise), and every field whose rule does not match is
left at its `InvoiceData.__init__` default — `none` for scalar fields,
`[]` for `line_items` and `license_info`, the empty mapping for
`payment_info`; `billed_to`, `subtotal`, `tax_amount` and `line_items`
are never set by any rule. -/
theorem C4_extract_total_and_defaults (text : List Char) :
    (invoice_number_rule text = none → (extract_invoice_data text).invoice_number = none) ∧
    (invoice_date_rule text = none → (extract_invoice_data text).invoice_date = none) ∧
    (due_date_rule text = none → (extract_invoice_data text).due_date = none) ∧
    (total_amount_rule text = none → (extract_invoice_data text).total_amount = none) ∧
    (currency_rule text = none → (extract_invoice_data text).currency = none) ∧
    (vendor_rule text = none → (extract_invoice_data text).vendor_name = none ∧
      (extract_invoice_data text).vendor_address = none) ∧
    (license_info_rule text = [] → (extract_invoice_data text).license_info = []) ∧
    (payment_method_rule text = none → card_rule text = none →
      (extract_invoice_data text).payment_info = {}) ∧
    (po_number_rule text = none → (extract_invoice_data text).po_number = none) ∧
    (payment_terms_rule text = none → (extract_invoice_data text).payment_terms = none) ∧
    (extract_invoice_data text).billed_to = none ∧
    (extract_invoice_data text).subtotal = none ∧
    (extract_invoice_data text).tax_amount = none ∧
    (extract_invoice_data text).line_items = [] := by
  refine ⟨fun h => by simp [extract_invoice_data, h],
    fun h => by simp [extract_invoice_data, h],
    fun h => by simp [extract_invoice_data, h],
    fun h => by simp [extract_invoice_data, h],
    fun h => by simp [extract_invoice_data, h],
    fun h => by simp [extract_invoice_data, h],
    fun h => by simp [extract_invoice_data, h],
    fun h1 h2 => by simp [extract_invoice_data, h1, h2],
    fun h => by simp [extract_invoice_data, h],
    fun h => by simp [extract_invoice_data, h],
    rfl, rfl, rfl, rfl⟩

/-- Witness for C4 at the empty string: no rule matches, so the
extracted record has every field at its default. -/
theorem C4_extract_total_and_defaults_witness :
    (invoice_number_rule [] = none ∧ (extract_invoice_data []).invoice_number = none) ∧
    (vendor_rule [] = none ∧ (extract_invoice_data []).vendor_name = none) ∧
    (license_info_rule [] = [] ∧ (extract_invoice_data []).license_info = []) ∧
    (payment_method_rule [] = none ∧ card_rule [] = none ∧
      (extract_invoice_data []).payment_info = {}) :=
  ⟨⟨by decide, (C4_extract_total_and_defaults []).1 (by decide)⟩,
   ⟨by decide, ((C4_extract_total_and_defaults []).2.2.2.2.2.1 (by decide)).1⟩,
   ⟨by decide, (C4_extract_total_and_defaults []).2.2.2.2.2.2.1 (by decide)⟩,
   ⟨by decide, by decide,
     (C4_extract_total_and_defaults []).2.2.2.2.2.2.2.1 (by decide) (by decide)⟩⟩

/-- C10. Null fields pass range filters: a record whose stored
`total_amount` is null yields the same match outcome whether or not
`min_amount` / `max_amount` are supplied, and a record whose stored
`invoice_date` is null yields the same match outcome whether or not
`start_date` / `end_date` are supplied — so such records are never
excluded by those range filters. -/
theorem C10_null_fields_pass_range_filters (params : SearchParams)
    (disk : List (List Char × StoredJson)) (invoice_id : List Char) (e : StoredJson) :
    (getTotalAmount e = none →
      searchMatch params disk invoice_id e
        = searchMatch { params with min_amount := none, max_amount := none }
            disk invoice_id e) ∧
    (getInvoiceDate e = none →
      searchMatch params disk invoice_id e
        = searchMatch { params with start_date := none, end_date := none }
            disk invoice_id e) := by
  constructor
  · intro h
    simp only [searchMatch, amountClause, vendorClause, dateClause, keywordClause, h]
  · intro h
    simp only [searchMatch, amountClause, vendorClause, dateClause, keywordClause, h,
      truthyStr]

/-- Witness for C10: a record with a null amount and null date passes a
search with strict numeric and date bounds exactly as it would with no
bounds at all. -/
theorem C10_null_fields_pass_range_filters_witness :
    (getTotalAmount (.record (to_dict (extract_invoice_data []))) = none) ∧
    (searchMatch
        { min_amount := some 100, max_amount := some 500,
          start_date := some "01/01/2024".data, end_date := some "12/31/2024".data }
        [] "A".data (.record (to_dict (extract_invoice_data [])))
      = searchMatch
        { min_amount := none, max_amount := none,
          start_date := some "01/01/2024".data, end_date := some "12/31/2024".data }
        [] "A".data (.record (to_dict (extract_invoice_data [])))) :=
  ⟨by decide,
    (C10_null_fields_pass_range_filters
      { min_amount := some 100, max_amount := some 500,
        start_date := some "01/01/2024".data, end_date := some "12/31/2024".data }
      [] "A".data (.record (to_dict (extract_invoice_data [])))).1 (by decide)⟩

/-- The id recorded in a search hit is the database key of the entry. -/
theorem mkSearchHit_id (invoice_id : List Char) (e : StoredJson) :
    (mkSearchHit invoice_id e).id = invoice_id := by
  cases e <;> rfl

/-- C9. Keyword filter strictness: whenever a (truthy) keyword filter is
supplied, every hit returned by `search_invoices` has a companion
metadata file present on disk — records without one are excluded even
if the other filters would have matched them. -/
theorem C9_keyword_excludes_missing_metadata
    (db disk : List (List Char × StoredJson)) (params : SearchParams)
    (k : List Char) (hk : params.keyword = some k) (hne : k ≠ []) :
    ∀ hit ∈ search_invoices db disk params,
      (lookupAssoc disk (hit.id ++ "_metadata.json".data)).isSome = true := by
  intro hit hmem
  simp only [search_invoices, List.mem_filterMap] at hmem
  obtain ⟨⟨iid, e⟩, _hin, hcond⟩ := hmem
  by_cases hmatch : searchMatch params disk iid e = true
  · have hhit : hit = mkSearchHit iid e := by
      rw [hmatch] at hcond
      simpa using hcond.symm
    subst hhit
    rw [mkSearchHit_id]
    have hkc : keywordClause params disk iid = true := by
      have := hmatch
      simp only [searchMatch, Bool.and_eq_true] at this
      exact this.2
    rw [keywordClause, hk] at hkc
    simp only [hne, if_neg] at hkc
    cases hlk : lookupAssoc disk (iid ++ "_metadata.json".data) with
    | none =>
      rw [if_neg (by simp [hne]), hlk] at hkc
      cases hkc
    | some c => rfl
  · rw [if_neg hmatch] at hcond
    cases hcond

/-- Witness for C9: a concrete store where the single record has a
metadata file; searching with a keyword returns it, and the metadata
lookup for the returned hit indeed succeeds. -/
theorem C9_keyword_excludes_missing_metadata_witness :
    (lookupAssoc
      [("A_metadata.json".data,
        StoredJson.metadata ⟨"net 30 terms".data, "a.pdf".data, "f1".data, "T".data⟩)]
      ((mkSearchHit "A".data
        (StoredJson.record (to_dict (extract_invoice_data [])))).id
        ++ "_metadata.json".data)).isSome = true :=
  C9_keyword_excludes_missing_metadata
    [("A".data, StoredJson.record (to_dict (extract_invoice_data [])))]
    [("A_metadata.json".data,
      StoredJson.metadata ⟨"net 30 terms".data, "a.pdf".data, "f1".data, "T".data⟩)]
    { keyword := some "net".data } "net".data rfl (by decide)
    (mkSearchHit "A".data (StoredJson.record (to_dict (extract_invoice_data []))))
    (by decide)

/-- Updating then looking up in an association list: the updated key
yields the new value, any other key is unaffected. -/
theorem lookupAssoc_updateAssoc {α : Type} (l : List (List Char × α))
    (k k' : List Char) (v : α) :
    lookupAssoc (updateAssoc l k v) k'
      = if k' = k then some v else lookupAssoc l k' := by
  induction l with
  | nil =>
    by_cases h : k' = k
    · simp [updateAssoc, lookupAssoc, h]
    · simp [updateAssoc, lookupAssoc, h, show ¬ (k = k') from fun hh => h hh.symm]
  | cons hd t ih =>
    obtain ⟨k₀, v₀⟩ := hd
    rw [updateAssoc]
    by_cases h0 : k₀ = k
    · rw [if_pos h0]
      subst h0
      by_cases h : k' = k₀
      · rw [lookupAssoc, if_pos h.symm, if_pos h]
      · rw [lookupAssoc, if_neg (fun hh => h hh.symm), if_neg h, lookupAssoc,
          if_neg (fun hh => h hh.symm)]
    · rw [if_neg h0, lookupAssoc]
      by_cases h : k₀ = k'
      · have hk : ¬ (k' = k) := fun hh => h0 (h.trans hh)
        rw [if_pos h, if_neg hk, lookupAssoc, if_pos h]
      · rw [if_neg h, ih]
        by_cases hk : k' = k
        · rw [if_pos hk, if_pos hk]
        · rw [if_neg hk, if_neg hk, lookupAssoc, if_neg h]

/-- Appending one entry to the database runs one more step of the
`list_vendors` loop. -/
theorem vendorsAgg_append (db : List (List Char × StoredJson))
    (x : List Char × StoredJson) :
    vendorsAgg (db ++ [x]) = vendorStep (vendorsAgg db) x := by
  simp [vendorsAgg, List.foldl_append]

/-- C8. Vendor aggregation semantics: an entry whose `vendor_name` is
falsy (absent, or the empty string) changes neither any vendor's count
nor any vendor's sum; an entry with a vendor whose amount string fails
to parse (after comma removal) increments that vendor's invoice count
but leaves its total spend unchanged; and the amount string
`not-a-number` indeed fails to parse. -/
theorem C8_vendor_aggregation (db : List (List Char × StoredJson))
    (invoice_id : List Char) (d : StoredJson) :
    (truthyStr (getVendorName d) = false →
      vendorsAgg (db ++ [(invoice_id, d)]) = vendorsAgg db) ∧
    (∀ v a, getVendorName d = some v → v ≠ [] → getTotalAmount d = some a →
      a ≠ [] → pyFloat (removeCommas a) = none →
      lookupAssoc (vendorsAgg (db ++ [(invoice_id, d)])) v
        = some ⟨((lookupAssoc (vendorsAgg db) v).getD ⟨0, 0⟩).invoice_count + 1,
                ((lookupAssoc (vendorsAgg db) v).getD ⟨0, 0⟩).total_spend⟩) ∧
    pyFloat (removeCommas "not-a-number".data) = none := by
  refine ⟨?_, ?_, by decide⟩
  · intro h
    rw [vendorsAgg_append, vendorStep]
    cases hv : getVendorName d with
    | none => rfl
    | some v =>
      rw [hv] at h
      simp only [truthyStr, ne_eq, decide_eq_false_iff_not, not_not] at h
      simp [h]
  · intro v a hv hvne ha hane hp
    rw [vendorsAgg_append, vendorStep, hv]
    simp only [hvne, if_neg, ha]
    rw [if_neg (by simp [hvne]), if_neg (by simp [hane]), hp]
    rw [lookupAssoc_updateAssoc, if_pos rfl]

/-- Witness for C8: a vendorless entry leaves the aggregation alone,
and an entry for vendor `Acme` with amount `not-a-number` is counted
with zero contribution to the sum. -/
theorem C8_vendor_aggregation_witness :
    (truthyStr (getVendorName (.record {})) = false ∧
      vendorsAgg ([] ++ [("A".data, .record {})]) = vendorsAgg []) ∧
    (lookupAssoc
        (vendorsAgg ([] ++ [("B".data,
          .record { vendor_name := some "Acme".data,
                    total_amount := some "not-a-number".data })]))
        "Acme".data
      = some ⟨((lookupAssoc (vendorsAgg []) "Acme".data).getD ⟨0, 0⟩).invoice_count + 1,
              ((lookupAssoc (vendorsAgg []) "Acme".data).getD ⟨0, 0⟩).total_spend⟩) :=
  ⟨⟨by decide, (C8_vendor_aggregation [] "A".data (.record {})).1 (by decide)⟩,
    (C8_vendor_aggregation [] "B".data
      (.record { vendor_name := some "Acme".data,
                 total_amount := some "not-a-number".data })).2.1
      "Acme".data "not-a-number".data rfl (by decide) rfl (by decide) (by decide)⟩

/-- C1. Reloaded store versus in-memory store, on the concrete run
where the polling pipeline processes one invoice PDF (file id `f1`,
derived id `inv_f1`) from an empty store: the saved record itself
round-trips (same value under `inv_f1` before and after reload), but
`load_invoice_database` globs `*.json`, which also matches the
companion `inv_f1_metadata.json`, so the reloaded mapping contains a
spurious entry `inv_f1_metadata` that the in-memory mapping never had —
the reloaded mapping is not identical to the saved one. -/
theorem C1_reload_not_identical :
    (lookupAssoc
        (load_invoice_database
          (handle_new_files
            (fun _ => ⟨"a.pdf".data, "application/pdf".data, "invoice bill payment".data⟩)
            "T".data ⟨[], [], []⟩
            [⟨"f1".data, "a.pdf".data, "application/pdf".data⟩]).1.disk)
        "inv_f1".data
      = lookupAssoc
          (handle_new_files
            (fun _ => ⟨"a.pdf".data, "application/pdf".data, "invoice bill payment".data⟩)
            "T".data ⟨[], [], []⟩
            [⟨"f1".data, "a.pdf".data, "application/pdf".data⟩]).1.invoice_database
          "inv_f1".data) ∧
    (lookupAssoc
        (handle_new_files
          (fun _ => ⟨"a.pdf".data, "application/pdf".data, "invoice bill payment".data⟩)
          "T".data ⟨[], [], []⟩
          [⟨"f1".data, "a.pdf".data, "application/pdf".data⟩]).1.invoice_database
        "inv_f1_metadata".data
      = none) ∧
    (lookupAssoc
        (load_invoice_database
          (handle_new_files
            (fun _ => ⟨"a.pdf".data, "application/pdf".data, "invoice bill payment".data⟩)
            "T".data ⟨[], [], []⟩
            [⟨"f1".data, "a.pdf".data, "application/pdf".data⟩]).1.disk)
        "inv_f1_metadata".data
      = some (.metadata ⟨"invoice bill payment".data, "a.pdf".data, "f1".data, "T".data⟩)) := by
  refine ⟨by decide, by decide, by decide⟩

/-- C2 counterexample: with file id `f1` already in the processed set
(and an empty store, as after a restart), `process_file` still reports
a download of `f1` and changes the record store — refuting that
processing an already-processed id through any processing operation
performs no download and leaves the store unchanged. -/
theorem C2_counterexample_process_file_redownloads :
    ("f1".data ∈ (ServerState.mk ["f1".data] [] []).processed_files) ∧
    (process_file
        (fun _ => ⟨"a.pdf".data, "application/pdf".data, "invoice bill payment".data⟩)
        (ServerState.mk ["f1".data] [] []) "f1".data).2.1 = ["f1".data] ∧
    (process_file
        (fun _ => ⟨"a.pdf".data, "application/pdf".data, "invoice bill payment".data⟩)
        (ServerState.mk ["f1".data] [] []) "f1".data).1.invoice_database
      ≠ (ServerState.mk ["f1".data] [] []).invoice_database := by
  refine ⟨by decide, by decide, by decide⟩

/-- C2 amended: the processed-set skip applies only to the polling
pipeline — `handle_new_files` performs no download and leaves the state
unchanged for a file whose id is already processed — while
`process_file` never consults the set: it downloads any PDF
unconditionally. -/
theorem C2_skip_only_in_polling (env : List Char → DriveFile) (now : List Char)
    (st : ServerState) :
    (∀ f : FileInfo, f.id ∈ st.processed_files →
      handle_new_files env now st [f] = (st, [])) ∧
    (∀ fid : List Char, (env fid).mimeType = "application/pdf".data →
      (process_file env st fid).2.1 = [fid]) := by
  constructor
  · intro f hf
    have hc : st.processed_files.contains f.id = true := by
      simp [List.contains, List.elem_iff, hf]
    rw [handle_new_files]
    simp only [List.foldl_cons, List.foldl_nil]
    rw [handleOneFile, if_pos hc]
    rfl
  · intro fid hm
    simp only [process_file]
    rw [if_neg (by simp [hm])]
    by_cases h : is_invoice (env fid).text = true <;> simp [h]

/-- Witness for C2 amended, on the concrete restart state. -/
theorem C2_skip_only_in_polling_witness :
    (handle_new_files
        (fun _ => ⟨"a.pdf".data, "application/pdf".data, "invoice bill payment".data⟩)
        "T".data (ServerState.mk ["f1".data] [] [])
        [⟨"f1".data, "a.pdf".data, "application/pdf".data⟩]
      = (ServerState.mk ["f1".data] [] [], [])) ∧
    (process_file
        (fun _ => ⟨"a.pdf".data, "application/pdf".data, "invoice bill payment".data⟩)
        (ServerState.mk ["f1".data] [] []) "f2".data).2.1 = ["f2".data] :=
  ⟨(C2_skip_only_in_polling
      (fun _ => ⟨"a.pdf".data, "application/pdf".data, "invoice bill payment".data⟩)
      "T".data (ServerState.mk ["f1".data] [] [])).1
      ⟨"f1".data, "a.pdf".data, "application/pdf".data⟩ (by decide),
   (C2_skip_only_in_polling
      (fun _ => ⟨"a.pdf".data, "application/pdf".data, "invoice bill payment".data⟩)
      "T".data (ServerState.mk ["f1".data] [] [])).2 "f2".data (by decide)⟩

/-- C3 counterexample: `process_file` on a fresh store persists the
record `inv_f1.json` but writes no companion `inv_f1_metadata.json` —
refuting that every record persisted by a processing operation gets a
companion metadata object. -/
theorem C3_counterexample_process_file_no_metadata :
    ((lookupAssoc
        (process_file
          (fun _ => ⟨"a.pdf".data, "application/pdf".data, "invoice bill payment".data⟩)
          ⟨[], [], []⟩ "f1".data).1.disk
        "inv_f1.json".data).isSome = true) ∧
    (lookupAssoc
        (process_file
          (fun _ => ⟨"a.pdf".data, "application/pdf".data, "invoice bill payment".data⟩)
          ⟨[], [], []⟩ "f1".data).1.disk
        "inv_f1_metadata.json".data = none) := by
  refine ⟨by decide, by decide⟩

/-- `processed_files.add` never touches the disk. -/
theorem addProcessed_disk (st : ServerState) (fid : List Char) :
    (addProcessed st fid).disk = st.disk := by
  rw [addProcessed]
  split <;> rfl

/-- C3 amended: the metadata companion invariant holds for the polling
pipeline — a file processed by `handle_new_files` (new id, PDF,
classified as invoice) gets a companion metadata object under the
derived id holding the raw text, file name, file id and processing
timestamp — while `process_file` writes no metadata at all (every
metadata-valued file present after it was already present before). -/
theorem C3_metadata_only_in_polling (env : List Char → DriveFile)
    (now : List Char) (st : ServerState) (f : FileInfo)
    (h1 : ¬ f.id ∈ st.processed_files)
    (h2 : f.mimeType = "application/pdf".data)
    (h3 : is_invoice (env f.id).text = true) :
    (lookupAssoc (handle_new_files env now st [f]).1.disk
        (derivedId (extract_invoice_data (env f.id).text).invoice_number f.id
          ++ "_metadata.json".data)
      = some (.metadata ⟨(env f.id).text, f.name, f.id, now⟩)) ∧
    (∀ (st' : ServerState) (fid fname : List Char) (m : MetadataDict),
      lookupAssoc (process_file env st' fid).1.disk fname = some (.metadata m) →
      lookupAssoc st'.disk fname = some (.metadata m)) := by
  constructor
  · have hc : st.processed_files.contains f.id = false := by
      simp [List.contains, List.elem_iff, h1]
    rw [handle_new_files]
    simp only [List.foldl_cons, List.foldl_nil]
    rw [handleOneFile, if_neg (by rw [hc]; simp), if_neg (by simp [h2])]
    simp only [h3, if_true]
    rw [addProcessed_disk]
    simp only [save_invoice_data]
    rw [lookupAssoc_updateAssoc, if_pos rfl]
  · intro st' fid fname m hlk
    simp only [process_file] at hlk
    by_cases hm : (env fid).mimeType = "application/pdf".data
    · rw [if_neg (by simp [hm])] at hlk
      by_cases hi : is_invoice (env fid).text = true
      · rw [if_neg (by simp [hi])] at hlk
        rw [addProcessed_disk] at hlk
        simp only [save_invoice_data] at hlk
        rw [lookupAssoc_updateAssoc] at hlk
        by_cases he : fname
            = derivedId (extract_invoice_data (env fid).text).invoice_number fid
              ++ ".json".data
        · rw [if_pos he] at hlk
          cases hlk
        · rwa [if_neg he] at hlk
      · rw [if_pos (by simp [hi])] at hlk
        exact hlk
    · rw [if_pos (by simp [hm])] at hlk
      exact hlk

/-- Witness for C3 amended: the concrete single-file polling run writes
the expected metadata companion. -/
theorem C3_metadata_only_in_polling_witness :
    lookupAssoc
        (handle_new_files
          (fun _ => ⟨"a.pdf".data, "application/pdf".data, "invoice bill payment".data⟩)
          "T".data ⟨[], [], []⟩
          [⟨"f1".data, "a.pdf".data, "application/pdf".data⟩]).1.disk
        (derivedId
            (extract_invoice_data "invoice bill payment".data).invoice_number "f1".data
          ++ "_metadata.json".data)
      = some (.metadata ⟨"invoice bill payment".data, "a.pdf".data, "f1".data, "T".data⟩) :=
  (C3_metadata_only_in_polling
    (fun _ => ⟨"a.pdf".data, "application/pdf".data, "invoice bill payment".data⟩)
    "T".data ⟨[], [], []⟩ ⟨"f1".data, "a.pdf".data, "application/pdf".data⟩
    (by decide) (by decide) (by decide)).1

/-!
## Language characterizations of the regex fragment enumerators
-/

theorem head?_isSome_iff {α : Type} (l : List α) : l.head?.isSome = true ↔ l ≠ [] := by
  cases l <;> simp

theorem reSearch_isSome_iff {α : Type} (m : List Char → Option α) (cs : List Char) :
    (reSearch m cs).isSome = true
      ↔ ∃ pre suf, cs = pre ++ suf ∧ (m suf).isSome = true := by
  induction cs with
  | nil =>
    rw [reSearch]
    constructor
    · intro h
      exact ⟨[], [], rfl, h⟩
    · rintro ⟨pre, suf, heq, h⟩
      obtain ⟨rfl, rfl⟩ := List.append_eq_nil.mp heq.symm
      exact h
  | cons c t ih =>
    rw [reSearch]
    cases hm : m (c :: t) with
    | some x =>
      simp only [Option.isSome_some, true_iff]
      exact ⟨[], c :: t, rfl, by rw [hm]; rfl⟩
    | none =>
      rw [ih]
      constructor
      · rintro ⟨pre, suf, rfl, h⟩
        exact ⟨c :: pre, suf, rfl, h⟩
      · rintro ⟨pre, suf, heq, h⟩
        cases pre with
        | nil =>
          rw [List.nil_append] at heq
          rw [← heq, hm] at h
          cases h
        | cons p ps =>
          injection heq with h1 h2
          exact ⟨ps, suf, h2, h⟩

theorem lowerStr_length (s : List Char) : (lowerStr s).length = s.length := by
  simp [lowerStr]

theorem lowerStr_append (s t : List Char) :
    lowerStr (s ++ t) = lowerStr s ++ lowerStr t := by
  simp [lowerStr]

theorem enumSpec_litE (s : List Char) : EnumSpec (litE s) (fun w => w = s) := by
  intro cs r
  rw [litE]
  split
  · next hp =>
    obtain ⟨t, ht⟩ := List.isPrefixOf_iff_prefix.mp hp
    simp only [List.mem_singleton]
    constructor
    · rintro rfl
      exact ⟨s, by rw [← ht, List.drop_left], rfl⟩
    · rintro ⟨w, hcs, rfl⟩
      rw [hcs, List.drop_left]
  · next hp =>
    simp only [List.not_mem_nil, false_iff]
    rintro ⟨w, hcs, rfl⟩
    exact hp (List.isPrefixOf_iff_prefix.mpr ⟨r, hcs.symm⟩)

theorem enumSpec_litCIE (s : List Char) :
    EnumSpec (litCIE s) (fun w => lowerStr w = lowerStr s) := by
  intro cs r
  rw [litCIE]
  split
  · next hp =>
    obtain ⟨t, ht⟩ := List.isPrefixOf_iff_prefix.mp hp
    simp only [List.mem_singleton]
    constructor
    · rintro rfl
      refine ⟨cs.take s.length, (List.take_append_drop _ cs).symm, ?_⟩
      have hmt : lowerStr (cs.take s.length) = (lowerStr cs).take s.length := by
        simp [lowerStr, List.map_take]
      rw [hmt, ← ht, ← lowerStr_length s, List.take_left]
    · rintro ⟨w, hcs, hw⟩
      have hwl : w.length = s.length := by
        rw [← lowerStr_length w, hw, lowerStr_length]
      rw [hcs, List.drop_left' hwl]
  · next hp =>
    simp only [List.not_mem_nil, false_iff]
    rintro ⟨w, hcs, hw⟩
    apply hp
    apply List.isPrefixOf_iff_prefix.mpr
    exact ⟨lowerStr r, by rw [← hw, hcs, lowerStr_append]⟩

theorem enumSpec_classStarGreedy (p : Char → Bool) :
    EnumSpec (classStarGreedy p) (fun w => w.all p = true) := by
  intro cs
  induction cs with
  | nil =>
    intro r
    rw [classStarGreedy]
    simp only [List.mem_singleton]
    constructor
    · rintro rfl
      exact ⟨[], rfl, rfl⟩
    · rintro ⟨w, hw, _⟩
      obtain ⟨rfl, rfl⟩ := List.append_eq_nil.mp hw.symm
      rfl
  | cons c t ih =>
    intro r
    rw [classStarGreedy]
    by_cases hc : p c = true
    · rw [if_pos hc]
      simp only [List.mem_append, List.mem_singleton]
      constructor
      · rintro (hmem | rfl)
        · obtain ⟨w, hw, hall⟩ := (ih r).mp hmem
          exact ⟨c :: w, by rw [hw]; rfl, by simp [hc, hall]⟩
        · exact ⟨[], rfl, rfl⟩
      · rintro ⟨w, hw, hall⟩
        cases w with
        | nil =>
          right
          rw [List.nil_append] at hw
          exact hw.symm
        | cons w0 ws =>
          left
          injection hw with h1 h2
          subst h1
          simp only [List.all_cons, Bool.and_eq_true] at hall
          exact (ih r).mpr ⟨ws, h2, hall.2⟩
    · rw [if_neg hc]
      simp only [List.mem_singleton]
      constructor
      · rintro rfl
        exact ⟨[], rfl, rfl⟩
      · rintro ⟨w, hw, hall⟩
        cases w with
        | nil =>
          rw [List.nil_append] at hw
          exact hw.symm
        | cons w0 ws =>
          injection hw with h1 h2
          subst h1
          simp only [List.all_cons, Bool.and_eq_true] at hall
          exact absurd hall.1 hc

theorem enumSpec_classStarLazy (p : Char → Bool) :
    EnumSpec (classStarLazy p) (fun w => w.all p = true) := by
  intro cs
  induction cs with
  | nil =>
    intro r
    rw [classStarLazy]
    simp only [List.mem_singleton]
    constructor
    · rintro rfl
      exact ⟨[], rfl, rfl⟩
    · rintro ⟨w, hw, _⟩
      obtain ⟨rfl, rfl⟩ := List.append_eq_nil.mp hw.symm
      rfl
  | cons c t ih =>
    intro r
    rw [classStarLazy]
    simp only [List.mem_cons]
    constructor
    · rintro (rfl | hmem)
      · exact ⟨[], rfl, rfl⟩
      · by_cases hc : p c = true
        · rw [if_pos hc] at hmem
          obtain ⟨w, hw, hall⟩ := (ih r).mp hmem
          exact ⟨c :: w, by rw [hw]; rfl, by simp [hc, hall]⟩
        · rw [if_neg hc] at hmem
          cases hmem
    · rintro ⟨w, hw, hall⟩
      cases w with
      | nil =>
        left
        rw [List.nil_append] at hw
        exact hw.symm
      | cons w0 ws =>
        right
        injection hw with h1 h2
        subst h1
        simp only [List.all_cons, Bool.and_eq_true] at hall
        rw [if_pos hall.1]
        exact (ih r).mpr ⟨ws, h2, hall.2⟩

theorem enumSpec_classRep (p : Char → Bool) (n : Nat) :
    EnumSpec (classRep p n) (fun w => w.length = n ∧ w.all p = true) := by
  intro cs r
  rw [classRep]
  split
  · next hcond =>
    obtain ⟨hlen, hall⟩ := hcond
    simp only [List.mem_singleton]
    constructor
    · rintro rfl
      exact ⟨cs.take n, (List.take_append_drop n cs).symm, hlen, hall⟩
    · rintro ⟨w, rfl, hwlen, _⟩
      exact (List.drop_left' hwlen).symm
  · next hcond =>
    simp only [List.not_mem_nil, false_iff]
    rintro ⟨w, rfl, hwlen, hwall⟩
    exact hcond ⟨by rw [List.take_left' hwlen, hwlen], by rw [List.take_left' hwlen]; exact hwall⟩

theorem enumSpec_classRange (p : Char → Bool) (lo hi : Nat) :
    EnumSpec (classRange p lo hi)
      (fun w => lo ≤ w.length ∧ w.length ≤ hi ∧ w.all p = true) := by
  intro cs r
  rw [classRange]
  simp only [List.mem_flatMap, List.mem_map, List.mem_range]
  constructor
  · rintro ⟨k, ⟨i, hilt, rfl⟩, hmem⟩
    obtain ⟨w, hcs, hwlen, hwall⟩ := (enumSpec_classRep p (hi - i) cs r).mp hmem
    exact ⟨w, hcs, by omega, by omega, hwall⟩
  · rintro ⟨w, hcs, hlo, hhi, hwall⟩
    refine ⟨w.length, ⟨hi - w.length, by omega, by omega⟩,
      (enumSpec_classRep p w.length cs r).mpr ⟨w, hcs, rfl, hwall⟩⟩

theorem enumSpec_thenE {a b : REnum} {La Lb : List Char → Prop}
    (ha : EnumSpec a La) (hb : EnumSpec b Lb) :
    EnumSpec (thenE a b)
      (fun w => ∃ w1 w2, w = w1 ++ w2 ∧ La w1 ∧ Lb w2) := by
  intro cs r
  rw [thenE]
  simp only [List.mem_flatMap]
  constructor
  · rintro ⟨m, hm, hr⟩
    obtain ⟨w1, rfl, h1⟩ := (ha cs m).mp hm
    obtain ⟨w2, rfl, h2⟩ := (hb m r).mp hr
    exact ⟨w1 ++ w2, (List.append_assoc w1 w2 r).symm, w1, w2, rfl, h1, h2⟩
  · rintro ⟨w, hcs, w1, w2, rfl, h1, h2⟩
    refine ⟨w2 ++ r, (ha cs _).mpr ⟨w1, ?_, h1⟩, (hb _ r).mpr ⟨w2, rfl, h2⟩⟩
    rw [hcs, List.append_assoc]

theorem enumSpec_altE {a b : REnum} {La Lb : List Char → Prop}
    (ha : EnumSpec a La) (hb : EnumSpec b Lb) :
    EnumSpec (altE a b) (fun w => La w ∨ Lb w) := by
  intro cs r
  rw [altE]
  simp only [List.mem_append]
  constructor
  · rintro (h | h)
    · obtain ⟨w, hcs, hw⟩ := (ha cs r).mp h
      exact ⟨w, hcs, Or.inl hw⟩
    · obtain ⟨w, hcs, hw⟩ := (hb cs r).mp h
      exact ⟨w, hcs, Or.inr hw⟩
  · rintro ⟨w, hcs, hw | hw⟩
    · exact Or.inl ((ha cs r).mpr ⟨w, hcs, hw⟩)
    · exact Or.inr ((hb cs r).mpr ⟨w, hcs, hw⟩)

theorem enumSpec_optE {a : REnum} {La : List Char → Prop} (ha : EnumSpec a La) :
    EnumSpec (optE a) (fun w => La w ∨ w = []) := by
  intro cs r
  rw [optE]
  simp only [List.mem_append, List.mem_singleton]
  constructor
  · rintro (h | rfl)
    · obtain ⟨w, hcs, hw⟩ := (ha cs r).mp h
      exact ⟨w, hcs, Or.inl hw⟩
    · exact ⟨[], rfl, Or.inr rfl⟩
  · rintro ⟨w, hcs, hw | rfl⟩
    · exact Or.inl ((ha cs r).mpr ⟨w, hcs, hw⟩)
    · right
      rw [List.nil_append] at hcs
      exact hcs.symm

theorem mem_withCap {e : REnum} {L : List Char → Prop} (he : EnumSpec e L)
    (cs w r : List Char) :
    (w, r) ∈ withCap e cs ↔ cs = w ++ r ∧ L w := by
  rw [withCap]
  simp only [List.mem_map]
  constructor
  · rintro ⟨r', hr', heq⟩
    obtain ⟨w', hcs, hL⟩ := (he cs r').mp hr'
    subst hcs
    have hwl : (w' ++ r').length - r'.length = w'.length := by
      rw [List.length_append]
      omega
    rw [hwl, List.take_left] at heq
    injection heq with he1 he2
    rw [← he1, ← he2]
    exact ⟨rfl, hL⟩
  · rintro ⟨rfl, hL⟩
    refine ⟨r, (he _ r).mpr ⟨w, rfl, hL⟩, ?_⟩
    have hwl : (w ++ r).length - r.length = w.length := by
      rw [List.length_append]
      omega
    rw [hwl, List.take_left]

theorem enumSpec_commaGroupsStarE : EnumSpec commaGroupsStarE CommaGroupsL := by
  intro cs
  suffices h : ∀ n cs, cs.length ≤ n → ∀ r,
      (r ∈ commaGroupsStarE cs ↔ ∃ w, cs = w ++ r ∧ CommaGroupsL w) from
    h cs.length cs le_rfl
  intro n
  induction n with
  | zero =>
    intro cs hlen r
    rw [List.length_eq_zero.mp (Nat.le_zero.mp hlen)]
    show r ∈ [([] : List Char)] ↔ _
    simp only [List.mem_singleton]
    constructor
    · rintro rfl
      exact ⟨[], rfl, .nil⟩
    · rintro ⟨w, hw, _⟩
      obtain ⟨rfl, rfl⟩ := List.append_eq_nil.mp hw.symm
      rfl
  | succ n ihn =>
    intro cs hlen r
    rcases cs with _ | ⟨c0, _ | ⟨c1, _ | ⟨c2, _ | ⟨c3, rest⟩⟩⟩⟩
    · show r ∈ [([] : List Char)] ↔ _
      simp only [List.mem_singleton]
      constructor
      · rintro rfl
        exact ⟨[], rfl, .nil⟩
      · rintro ⟨w, hw, _⟩
        obtain ⟨rfl, rfl⟩ := List.append_eq_nil.mp hw.symm
        rfl
    · show r ∈ [[c0]] ↔ _
      simp only [List.mem_singleton]
      constructor
      · rintro rfl
        exact ⟨[], rfl, .nil⟩
      · rintro ⟨w, hw, hL⟩
        cases hL with
        | nil =>
          rw [List.nil_append] at hw
          exact hw.symm
        | group e1 e2 e3 w' h1 h2 h3 hL' =>
          exfalso
          have hlw := congrArg List.length hw
          simp [List.length_append] at hlw
    · show r ∈ [[c0, c1]] ↔ _
      simp only [List.mem_singleton]
      constructor
      · rintro rfl
        exact ⟨[], rfl, .nil⟩
      · rintro ⟨w, hw, hL⟩
        cases hL with
        | nil =>
          rw [List.nil_append] at hw
          exact hw.symm
        | group e1 e2 e3 w' h1 h2 h3 hL' =>
          exfalso
          have hlw := congrArg List.length hw
          simp [List.length_append] at hlw
    · show r ∈ [[c0, c1, c2]] ↔ _
      simp only [List.mem_singleton]
      constructor
      · rintro rfl
        exact ⟨[], rfl, .nil⟩
      · rintro ⟨w, hw, hL⟩
        cases hL with
        | nil =>
          rw [List.nil_append] at hw
          exact hw.symm
        | group e1 e2 e3 w' h1 h2 h3 hL' =>
          exfalso
          have hlw := congrArg List.length hw
          simp [List.length_append] at hlw
    · show r ∈ (if c0 = ',' && isDigitChar c1 && isDigitChar c2 && isDigitChar c3 then
          commaGroupsStarE rest ++ [c0 :: c1 :: c2 :: c3 :: rest]
        else [c0 :: c1 :: c2 :: c3 :: rest]) ↔ _
      by_cases hcond :
          (c0 = ',' && isDigitChar c1 && isDigitChar c2 && isDigitChar c3) = true
      · rw [if_pos hcond]
        simp only [Bool.and_eq_true, decide_eq_true_eq] at hcond
        obtain ⟨⟨⟨hc0, hd1⟩, hd2⟩, hd3⟩ := hcond
        subst hc0
        simp only [List.mem_append, List.mem_singleton]
        have hrec := ihn rest (by simp at hlen; omega) r
        constructor
        · rintro (hmem | rfl)
          · obtain ⟨w, rfl, hL⟩ := hrec.mp hmem
            exact ⟨',' :: c1 :: c2 :: c3 :: w, rfl, .group c1 c2 c3 w hd1 hd2 hd3 hL⟩
          · exact ⟨[], rfl, .nil⟩
        · rintro ⟨w, hw, hL⟩
          cases hL with
          | nil =>
            right
            rw [List.nil_append] at hw
            exact hw.symm
          | group e1 e2 e3 w' h1 h2 h3 hL' =>
            left
            injection hw with hc hw
            injection hw with hc1 hw
            injection hw with hc2 hw
            injection hw with hc3 hw
            exact hrec.mpr ⟨w', hw, hL'⟩
      · rw [if_neg hcond]
        simp only [List.mem_singleton]
        constructor
        · rintro rfl
          exact ⟨[], rfl, .nil⟩
        · rintro ⟨w, hw, hL⟩
          cases hL with
          | nil =>
            rw [List.nil_append] at hw
            exact hw.symm
          | group e1 e2 e3 w' h1 h2 h3 hL' =>
            exfalso
            apply hcond
            injection hw with hc hw
            injection hw with hc1 hw
            injection hw with hc2 hw
            injection hw with hc3 hw
            subst hc
            subst hc1
            subst hc2
            subst hc3
            simp [h1, h2, h3]

/-!
## Characterizations of the spec-side shape predicates
-/

theorem anySuffix_iff (k : List Char → Bool) (cs : List Char) :
    anySuffix k cs = true ↔ ∃ pre suf, cs = pre ++ suf ∧ k suf = true := by
  induction cs with
  | nil =>
    rw [anySuffix]
    constructor
    · intro h
      exact ⟨[], [], rfl, h⟩
    · rintro ⟨pre, suf, heq, h⟩
      obtain ⟨rfl, rfl⟩ := List.append_eq_nil.mp heq.symm
      exact h
  | cons c t ih =>
    rw [anySuffix]
    simp only [Bool.or_eq_true, ih]
    constructor
    · rintro (h | ⟨pre, suf, rfl, h⟩)
      · exact ⟨[], c :: t, rfl, h⟩
      · exact ⟨c :: pre, suf, rfl, h⟩
    · rintro ⟨pre, suf, heq, h⟩
      cases pre with
      | nil =>
        rw [List.nil_append] at heq
        exact Or.inl (heq ▸ h)
      | cons p ps =>
        injection heq with h1 h2
        exact Or.inr ⟨ps, suf, h2, h⟩

theorem starThen_iff (p : Char → Bool) (k : List Char → Bool) (cs : List Char) :
    starThen p k cs = true
      ↔ ∃ w r, cs = w ++ r ∧ w.all p = true ∧ k r = true := by
  induction cs with
  | nil =>
    rw [starThen]
    constructor
    · intro h
      exact ⟨[], [], rfl, rfl, h⟩
    · rintro ⟨w, r, heq, _, h⟩
      obtain ⟨rfl, rfl⟩ := List.append_eq_nil.mp heq.symm
      exact h
  | cons c t ih =>
    rw [starThen]
    simp only [Bool.or_eq_true, Bool.and_eq_true, ih]
    constructor
    · rintro (h | ⟨hc, w, r, rfl, hall, h⟩)
      · exact ⟨[], c :: t, rfl, rfl, h⟩
      · exact ⟨c :: w, r, rfl, by simp [hc, hall], h⟩
    · rintro ⟨w, r, heq, hall, h⟩
      cases w with
      | nil =>
        rw [List.nil_append] at heq
        exact Or.inl (heq ▸ h)
      | cons w0 ws =>
        injection heq with h1 h2
        subst h1
        simp only [List.all_cons, Bool.and_eq_true] at hall
        exact Or.inr ⟨hall.1, ws, r, h2, hall.2, h⟩

theorem maskRunThenDigitsAt_iff (cs : List Char) :
    maskRunThenDigitsAt cs = true
      ↔ ∃ u v r, cs = u ++ v ++ r ∧ 12 ≤ u.length ∧ u.length ≤ 15 ∧
          u.all isMaskChar = true ∧ v.length = 4 ∧ v.all isDigitChar = true := by
  rw [maskRunThenDigitsAt]
  simp only [List.any_eq_true, Bool.and_eq_true, decide_eq_true_eq]
  constructor
  · rintro ⟨kk, hkmem, ⟨⟨hlen, hmask⟩, hlen4⟩, hdig⟩
    have hkb : 12 ≤ kk ∧ kk ≤ 15 := by
      have := List.mem_range'.mp hkmem
      omega
    refine ⟨cs.take kk, (cs.drop kk).take 4, (cs.drop kk).drop 4, ?_, ?_, ?_, hmask, hlen4, hdig⟩
    · rw [List.append_assoc, List.take_append_drop, List.take_append_drop]
    · rw [hlen]; exact hkb.1
    · rw [hlen]; exact hkb.2
  · rintro ⟨u, v, r, rfl, h12, h15, hmask, hv4, hdig⟩
    refine ⟨u.length, List.mem_range'.mpr ⟨u.length - 12, by omega, by omega⟩, ?_⟩
    rw [List.append_assoc] at *
    rw [List.take_left, List.drop_left, List.take_left' hv4]
    exact ⟨⟨⟨rfl, hmask⟩, hv4⟩, hdig⟩

theorem isSome_map {α β : Type} (f : α → β) (o : Option α) :
    (o.map f).isSome = o.isSome := by
  cases o <;> rfl

/-- The common shape of the extractor matchers: a prefix fragment, then
a captured fragment, first candidate returned. -/
theorem capMatch_isSome_iff {e1 e2 : REnum} {L1 L2 : List Char → Prop}
    (h1 : EnumSpec e1 L1) (h2 : EnumSpec e2 L2) (cs : List Char) :
    (((((e1 cs).flatMap (withCap e2)).head?).map Prod.fst).isSome = true)
      ↔ ∃ w1 w2 r, cs = w1 ++ w2 ++ r ∧ L1 w1 ∧ L2 w2 := by
  rw [isSome_map, head?_isSome_iff]
  constructor
  · intro hne
    obtain ⟨x, hx⟩ := List.exists_mem_of_ne_nil _ hne
    obtain ⟨m, hm, hx2⟩ := List.mem_flatMap.mp hx
    obtain ⟨w1, rfl, hL1⟩ := (h1 cs m).mp hm
    obtain ⟨w2, r⟩ := x
    rw [mem_withCap h2] at hx2
    obtain ⟨rfl, hL2⟩ := hx2
    exact ⟨w1, w2, r, (List.append_assoc w1 w2 r).symm, hL1, hL2⟩
  · rintro ⟨w1, w2, r, rfl, hL1, hL2⟩
    apply List.ne_nil_of_mem (a := (w2, r))
    exact List.mem_flatMap.mpr ⟨w2 ++ r,
      (h1 _ _).mpr ⟨w1, List.append_assoc w1 w2 r, hL1⟩,
      (mem_withCap h2 _ _ _).mpr ⟨rfl, hL2⟩⟩

/-- Language of the `(?:credit|card).*?` part of the card pattern. -/
theorem cardPreSpec :
    EnumSpec (thenE (altE (litE "credit".data) (litE "card".data))
        (classStarLazy isNotNL))
      (fun w => ∃ a b, w = a ++ b ∧ (a = "credit".data ∨ a = "card".data) ∧
        b.all isNotNL = true) :=
  enumSpec_thenE
    (enumSpec_altE (enumSpec_litE "credit".data) (enumSpec_litE "card".data))
    (enumSpec_classStarLazy isNotNL)

/-- Language of the captured `[Xx*]{12,15}\d{4}` part of the card
pattern. -/
theorem cardCapSpec :
    EnumSpec (thenE (classRange isMaskChar 12 15) (classRep isDigitChar 4))
      (fun w => ∃ u v, w = u ++ v ∧
        (12 ≤ u.length ∧ u.length ≤ 15 ∧ u.all isMaskChar = true) ∧
        (v.length = 4 ∧ v.all isDigitChar = true)) :=
  enumSpec_thenE (enumSpec_classRange isMaskChar 12 15)
    (enumSpec_classRep isDigitChar 4)

/-- C7 counterexample: the text consisting of exactly a run of 12 mask
characters followed by 4 digits satisfies the claim's shape (a mask run
anywhere, no `credit`/`card` required), yet the code captures nothing —
refuting that the run is captured even when no `credit`/`card` token
precedes it. -/
theorem C7_counterexample_no_prefix_not_captured :
    specCardShapeNoPrefix "XXXXXXXXXXXX1234".data = true ∧
    card_rule "XXXXXXXXXXXX1234".data = none ∧
    (extract_invoice_data "XXXXXXXXXXXX1234".data).payment_info.card = none := by
  refine ⟨by decide, by decide, by decide⟩

/-- C7 amended: a masked card number is captured exactly when the text
contains a lowercase `credit` or `card` followed — with no intervening
newline — by a run of 12-15 mask characters immediately followed by 4
digits. -/
theorem C7_card_prefix_required (text : List Char) :
    (card_rule text).isSome = true ↔ specCardShapeWithPrefix text = true := by
  rw [card_rule, reSearch_isSome_iff, specCardShapeWithPrefix, anySuffix_iff]
  constructor
  · rintro ⟨pre, suf, rfl, hsome⟩
    obtain ⟨w1, w2, r, hsuf, hL1, hL2⟩ :=
      (capMatch_isSome_iff cardPreSpec cardCapSpec suf).mp hsome
    obtain ⟨a, b, rfl, hab, hbnl⟩ := hL1
    obtain ⟨u, v, rfl, ⟨hu12, hu15, humask⟩, hv4, hvdig⟩ := hL2
    refine ⟨pre, suf, rfl, ?_⟩
    have hrun : maskRunThenDigitsAt (u ++ v ++ r) = true :=
      (maskRunThenDigitsAt_iff _).mpr ⟨u, v, r, rfl, hu12, hu15, humask, hv4, hvdig⟩
    have hsame : sameLineThenRun (b ++ (u ++ v ++ r)) = true := by
      rw [sameLineThenRun, starThen_iff]
      exact ⟨b, u ++ v ++ r, rfl, hbnl, hrun⟩
    rw [Bool.or_eq_true, Bool.and_eq_true, Bool.and_eq_true]
    cases hab with
    | inl ha =>
      subst ha
      left
      have hsufeq : suf = "credit".data ++ (b ++ (u ++ v ++ r)) := by
        rw [hsuf]
        simp [List.append_assoc]
      constructor
      · exact List.isPrefixOf_iff_prefix.mpr ⟨b ++ (u ++ v ++ r), hsufeq.symm⟩
      · rw [hsufeq, List.drop_left' (show ("credit".data).length = 6 from rfl)]
        exact hsame
    | inr ha =>
      subst ha
      right
      have hsufeq : suf = "card".data ++ (b ++ (u ++ v ++ r)) := by
        rw [hsuf]
        simp [List.append_assoc]
      constructor
      · exact List.isPrefixOf_iff_prefix.mpr ⟨b ++ (u ++ v ++ r), hsufeq.symm⟩
      · rw [hsufeq, List.drop_left' (show ("card".data).length = 4 from rfl)]
        exact hsame
  · rintro ⟨pre, suf, rfl, hor⟩
    rw [Bool.or_eq_true, Bool.and_eq_true, Bool.and_eq_true] at hor
    refine ⟨pre, suf, rfl, ?_⟩
    apply (capMatch_isSome_iff cardPreSpec cardCapSpec suf).mpr
    cases hor with
    | inl h =>
      obtain ⟨hpre6, hsame⟩ := h
      obtain ⟨t, ht⟩ := List.isPrefixOf_iff_prefix.mp hpre6
      have hdrop : suf.drop 6 = t := by
        rw [← ht, List.drop_left' (show ("credit".data).length = 6 from rfl)]
      rw [hdrop, sameLineThenRun, starThen_iff] at hsame
      obtain ⟨mid, rr, rfl, hmidnl, hrun⟩ := hsame
      rw [maskRunThenDigitsAt_iff] at hrun
      obtain ⟨u, v, r, rfl, hu12, hu15, humask, hv4, hvdig⟩ := hrun
      refine ⟨"credit".data ++ mid, u ++ v, r, ?_,
        ⟨"credit".data, mid, rfl, Or.inl rfl, hmidnl⟩,
        ⟨u, v, rfl, ⟨hu12, hu15, humask⟩, hv4, hvdig⟩⟩
      rw [← ht]
      simp [List.append_assoc]
    | inr h =>
      obtain ⟨hpre4, hsame⟩ := h
      obtain ⟨t, ht⟩ := List.isPrefixOf_iff_prefix.mp hpre4
      have hdrop : suf.drop 4 = t := by
        rw [← ht, List.drop_left' (show ("card".data).length = 4 from rfl)]
      rw [hdrop, sameLineThenRun, starThen_iff] at hsame
      obtain ⟨mid, rr, rfl, hmidnl, hrun⟩ := hsame
      rw [maskRunThenDigitsAt_iff] at hrun
      obtain ⟨u, v, r, rfl, hu12, hu15, humask, hv4, hvdig⟩ := hrun
      refine ⟨"card".data ++ mid, u ++ v, r, ?_,
        ⟨"card".data, mid, rfl, Or.inr rfl, hmidnl⟩,
        ⟨u, v, rfl, ⟨hu12, hu15, humask⟩, hv4, hvdig⟩⟩
      rw [← ht]
      simp [List.append_assoc]

/-- Witness for C7 amended: with a `card` prefix the same mask run is
captured. -/
theorem C7_card_prefix_required_witness :
    specCardShapeWithPrefix "card XXXXXXXXXXXX1234".data = true ∧
    (card_rule "card XXXXXXXXXXXX1234".data).isSome = true :=
  ⟨by decide, (C7_card_prefix_required "card XXXXXXXXXXXX1234".data).mpr (by decide)⟩

/-!
## The total-amount rule (C6)
-/

theorem enumSpec_congr {e : REnum} {L1 L2 : List Char → Prop} (h : EnumSpec e L1)
    (hiff : ∀ w, L1 w ↔ L2 w) : EnumSpec e L2 := by
  intro cs r
  rw [h cs r]
  constructor
  · rintro ⟨w, hw, hL⟩
    exact ⟨w, hw, (hiff w).mp hL⟩
  · rintro ⟨w, hw, hL⟩
    exact ⟨w, hw, (hiff w).mpr hL⟩

theorem optTwoDecimalsThen_true (cs : List Char) :
    optTwoDecimalsThen (fun _ => true) cs = true := by
  simp [optTwoDecimalsThen]

theorem commaGroupsThen_iff (k : List Char → Bool) (cs : List Char) :
    commaGroupsThen k cs = true
      ↔ ∃ w r, cs = w ++ r ∧ CommaGroupsL w ∧ k r = true := by
  suffices h : ∀ n cs, cs.length ≤ n →
      (commaGroupsThen k cs = true ↔ ∃ w r, cs = w ++ r ∧ CommaGroupsL w ∧ k r = true) from
    h cs.length cs le_rfl
  intro n
  induction n with
  | zero =>
    intro cs hlen
    rw [List.length_eq_zero.mp (Nat.le_zero.mp hlen)]
    show k [] = true ↔ _
    constructor
    · intro h
      exact ⟨[], [], rfl, .nil, h⟩
    · rintro ⟨w, r, heq, _, hk⟩
      obtain ⟨rfl, rfl⟩ := List.append_eq_nil.mp heq.symm
      exact hk
  | succ n ihn =>
    intro cs hlen
    rcases cs with _ | ⟨c0, _ | ⟨c1, _ | ⟨c2, _ | ⟨c3, rest⟩⟩⟩⟩
    · show k [] = true ↔ _
      constructor
      · intro h
        exact ⟨[], [], rfl, .nil, h⟩
      · rintro ⟨w, r, heq, _, hk⟩
        obtain ⟨rfl, rfl⟩ := List.append_eq_nil.mp heq.symm
        exact hk
    · show k [c0] = true ↔ _
      constructor
      · intro h
        exact ⟨[], [c0], rfl, .nil, h⟩
      · rintro ⟨w, r, hw, hL, hk⟩
        cases hL with
        | nil =>
          rw [List.nil_append] at hw
          rw [← hw] at hk
          exact hk
        | group e1 e2 e3 w' h1 h2 h3 hL' =>
          exfalso
          have hlw := congrArg List.length hw
          simp [List.length_append] at hlw
    · show k [c0, c1] = true ↔ _
      constructor
      · intro h
        exact ⟨[], [c0, c1], rfl, .nil, h⟩
      · rintro ⟨w, r, hw, hL, hk⟩
        cases hL with
        | nil =>
          rw [List.nil_append] at hw
          rw [← hw] at hk
          exact hk
        | group e1 e2 e3 w' h1 h2 h3 hL' =>
          exfalso
          have hlw := congrArg List.length hw
          simp [List.length_append] at hlw
    · show k [c0, c1, c2] = true ↔ _
      constructor
      · intro h
        exact ⟨[], [c0, c1, c2], rfl, .nil, h⟩
      · rintro ⟨w, r, hw, hL, hk⟩
        cases hL with
        | nil =>
          rw [List.nil_append] at hw
          rw [← hw] at hk
          exact hk
        | group e1 e2 e3 w' h1 h2 h3 hL' =>
          exfalso
          have hlw := congrArg List.length hw
          simp [List.length_append] at hlw
    · show (if c0 = ',' && isDigitChar c1 && isDigitChar c2 && isDigitChar c3 then
          k (c0 :: c1 :: c2 :: c3 :: rest) || commaGroupsThen k rest
        else k (c0 :: c1 :: c2 :: c3 :: rest)) = true ↔ _
      by_cases hcond :
          (c0 = ',' && isDigitChar c1 && isDigitChar c2 && isDigitChar c3) = true
      · rw [if_pos hcond]
        simp only [Bool.and_eq_true, decide_eq_true_eq] at hcond
        obtain ⟨⟨⟨hc0, hd1⟩, hd2⟩, hd3⟩ := hcond
        subst hc0
        rw [Bool.or_eq_true]
        have hrec := ihn rest (by simp at hlen; omega)
        constructor
        · rintro (hk | hmem)
          · exact ⟨[], ',' :: c1 :: c2 :: c3 :: rest, rfl, .nil, hk⟩
          · obtain ⟨w, r, rfl, hL, hk⟩ := hrec.mp hmem
            exact ⟨',' :: c1 :: c2 :: c3 :: w, r, rfl,
              .group c1 c2 c3 w hd1 hd2 hd3 hL, hk⟩
        · rintro ⟨w, r, hw, hL, hk⟩
          cases hL with
          | nil =>
            left
            rw [List.nil_append] at hw
            rw [hw]
            exact hk
          | group e1 e2 e3 w' h1 h2 h3 hL' =>
            right
            injection hw with hc hw
            injection hw with hc1 hw
            injection hw with hc2 hw
            injection hw with hc3 hw
            exact hrec.mpr ⟨w', r, hw, hL', hk⟩
      · rw [if_neg hcond]
        constructor
        · intro hk
          exact ⟨[], c0 :: c1 :: c2 :: c3 :: rest, rfl, .nil, hk⟩
        · rintro ⟨w, r, hw, hL, hk⟩
          cases hL with
          | nil =>
            rw [List.nil_append] at hw
            rw [← hw] at hk
            exact hk
          | group e1 e2 e3 w' h1 h2 h3 hL' =>
            exfalso
            apply hcond
            injection hw with hc hw
            injection hw with hc1 hw
            injection hw with hc2 hw
            injection hw with hc3 hw
            subst hc
            subst hc1
            subst hc2
            subst hc3
            simp [h1, h2, h3]

theorem mem_glyphOptE (cs : List Char) (g : Option Char) (r : List Char) :
    (g, r) ∈ glyphOptE cs ↔
      ((∃ c, g = some c ∧ isCurrencyGlyph c = true ∧ cs = c :: r) ∨
        (g = none ∧ r = cs)) := by
  cases cs with
  | nil =>
    rw [glyphOptE]
    simp only [List.mem_singleton, Prod.mk.injEq]
    constructor
    · rintro ⟨rfl, rfl⟩
      exact Or.inr ⟨rfl, rfl⟩
    · rintro (⟨c, rfl, _, hcs⟩ | ⟨rfl, rfl⟩)
      · cases hcs
      · exact ⟨rfl, rfl⟩
  | cons c t =>
    rw [glyphOptE]
    by_cases hc : isCurrencyGlyph c = true
    · rw [if_pos hc]
      simp only [List.mem_cons, List.not_mem_nil, or_false, Prod.mk.injEq]
      constructor
      · rintro (⟨rfl, rfl⟩ | ⟨rfl, rfl⟩)
        · exact Or.inl ⟨c, rfl, hc, rfl⟩
        · exact Or.inr ⟨rfl, rfl⟩
      · rintro (⟨c', rfl, _, hcs⟩ | ⟨rfl, rfl⟩)
        · injection hcs with h1 h2
          subst h1
          subst h2
          exact Or.inl ⟨rfl, rfl⟩
        · exact Or.inr ⟨rfl, rfl⟩
    · rw [if_neg hc]
      simp only [List.mem_singleton, Prod.mk.injEq]
      constructor
      · rintro ⟨rfl, rfl⟩
        exact Or.inr ⟨rfl, rfl⟩
      · rintro (⟨c', rfl, hc', hcs⟩ | ⟨rfl, rfl⟩)
        · injection hcs with h1 h2
          subst h1
          exact absurd hc' hc
        · exact ⟨rfl, rfl⟩

theorem ciPrefix_drop_iff (t cs : List Char) (P : List Char → Prop) :
    (ciPrefix t cs = true ∧ P (cs.drop t.length))
      ↔ ∃ w r, cs = w ++ r ∧ lowerStr w = lowerStr t ∧ P r := by
  constructor
  · rintro ⟨hp, hP⟩
    rw [ciPrefix] at hp
    obtain ⟨u, hu⟩ := List.isPrefixOf_iff_prefix.mp hp
    refine ⟨cs.take t.length, cs.drop t.length, (List.take_append_drop _ _).symm, ?_, hP⟩
    have hmt : lowerStr (cs.take t.length) = (lowerStr cs).take t.length := by
      simp [lowerStr, List.map_take]
    rw [hmt, ← hu, ← lowerStr_length t, List.take_left]
  · rintro ⟨w, r, rfl, hw, hP⟩
    have hwl : w.length = t.length := by
      rw [← lowerStr_length w, hw, lowerStr_length]
    constructor
    · rw [ciPrefix]
      apply List.isPrefixOf_iff_prefix.mpr
      exact ⟨lowerStr r, by rw [← hw, ← lowerStr_append]⟩
    · rw [List.drop_left' hwl]
      exact hP

/-- The candidate enumeration of the amount alternation captures
exactly the strings of `NumberL`. -/
theorem enumSpec_numAltE : EnumSpec numAltE NumberL := by
  have hdec : EnumSpec (optE (thenE (litE ".".data) (classRep isDigitChar 2)))
      (fun w => (∃ w1 w2, w = w1 ++ w2 ∧ w1 = ".".data ∧
        (w2.length = 2 ∧ w2.all isDigitChar = true)) ∨ w = []) :=
    enumSpec_optE (enumSpec_thenE (enumSpec_litE ".".data)
      (enumSpec_classRep isDigitChar 2))
  have hcomp := enumSpec_altE
    (enumSpec_thenE (enumSpec_classRange isDigitChar 1 3)
      (enumSpec_thenE enumSpec_commaGroupsStarE hdec))
    (enumSpec_thenE
      (enumSpec_thenE (enumSpec_classRep isDigitChar 1)
        (enumSpec_classStarGreedy isDigitChar)) hdec)
  apply enumSpec_congr hcomp
  intro w
  constructor
  · rintro (⟨a, b, rfl, ⟨ha1, ha3, hadig⟩, g, h, rfl, hg, hdecd⟩ |
      ⟨a, b, rfl, ⟨x, y, rfl, ⟨hx1, hxdig⟩, hydig⟩, hdecd⟩)
    · rcases hdecd with ⟨w1, w2, rfl, rfl, hw2len, hw2dig⟩ | rfl
      · obtain ⟨e1, e2, rfl⟩ := List.length_eq_two.mp hw2len
        simp only [List.all_cons, List.all_nil, Bool.and_eq_true, and_true] at hw2dig
        exact ⟨a, g, ['.', e1, e2], by simp, Or.inl ⟨ha1, ha3, hadig, hg⟩,
          Or.inl ⟨e1, e2, rfl, hw2dig.1, hw2dig.2⟩⟩
      · exact ⟨a, g, [], by simp, Or.inl ⟨ha1, ha3, hadig, hg⟩, Or.inr rfl⟩
    · rcases hdecd with ⟨w1, w2, rfl, rfl, hw2len, hw2dig⟩ | rfl
      · obtain ⟨e1, e2, rfl⟩ := List.length_eq_two.mp hw2len
        simp only [List.all_cons, List.all_nil, Bool.and_eq_true, and_true] at hw2dig
        refine ⟨x ++ y, [], ['.', e1, e2], by simp, ?_,
          Or.inl ⟨e1, e2, rfl, hw2dig.1, hw2dig.2⟩⟩
        exact Or.inr ⟨by rw [List.length_append]; omega,
          by rw [List.all_append]; simp [hxdig, hydig], rfl⟩
      · refine ⟨x ++ y, [], [], by simp, ?_, Or.inr rfl⟩
        exact Or.inr ⟨by rw [List.length_append]; omega,
          by rw [List.all_append]; simp [hxdig, hydig], rfl⟩
  · rintro ⟨i, g, d, rfl, hig, hdec2⟩
    rcases hig with ⟨hi1, hi3, hidig, hg⟩ | ⟨hi1, hidig, rfl⟩
    · left
      refine ⟨i, g ++ d, by simp, ⟨hi1, hi3, hidig⟩, g, d, rfl, hg, ?_⟩
      rcases hdec2 with ⟨da, db, rfl, hda, hdb⟩ | rfl
      · exact Or.inl ⟨".".data, [da, db], rfl, rfl, rfl, by simp [hda, hdb]⟩
      · exact Or.inr rfl
    · right
      cases i with
      | nil => simp at hi1
      | cons c y =>
        simp only [List.all_cons, Bool.and_eq_true] at hidig
        refine ⟨c :: y, d, by simp, ⟨[c], y, rfl, ⟨rfl, by simp [hidig.1]⟩, hidig.2⟩, ?_⟩
        rcases hdec2 with ⟨da, db, rfl, hda, hdb⟩ | rfl
        · exact Or.inl ⟨".".data, [da, db], rfl, rfl, rfl, by simp [hda, hdb]⟩
        · exact Or.inr rfl

theorem optGlyphThen_iff (k : List Char → Bool) (cs : List Char) :
    optGlyphThen k cs = true ↔
      ∃ gw r, cs = gw ++ r ∧
        ((∃ c, gw = [c] ∧ isCurrencyGlyph c = true) ∨ gw = []) ∧ k r = true := by
  cases cs with
  | nil =>
    rw [optGlyphThen]
    simp only [Bool.false_and, Bool.false_or]
    constructor
    · intro h
      exact ⟨[], [], rfl, Or.inr rfl, h⟩
    · rintro ⟨gw, r, heq, hgw, hk⟩
      obtain ⟨rfl, rfl⟩ := List.append_eq_nil.mp heq.symm
      exact hk
  | cons c t =>
    rw [optGlyphThen]
    rw [Bool.or_eq_true, Bool.and_eq_true]
    constructor
    · rintro (⟨hc, hk⟩ | hk)
      · exact ⟨[c], t, rfl, Or.inl ⟨c, rfl, hc⟩, hk⟩
      · exact ⟨[], c :: t, rfl, Or.inr rfl, hk⟩
    · rintro ⟨gw, r, heq, ⟨c', rfl, hc'⟩ | rfl, hk⟩
      · injection heq with h1 h2
        subst h1
        subst h2
        exact Or.inl ⟨hc', hk⟩
      · rw [List.nil_append] at heq
        subst heq
        exact Or.inr hk

/-- The spec-side `numberAt` test matches exactly the inputs beginning
with a `NumberL` token. -/
theorem numberAt_iff (cs : List Char) :
    numberAt cs = true ↔ ∃ w r, cs = w ++ r ∧ NumberL w := by
  rw [numberAt.eq_def, Bool.or_eq_true]
  constructor
  · rintro (h1 | h2)
    · simp only [List.any_eq_true, Bool.and_eq_true, decide_eq_true_eq] at h1
      obtain ⟨kk, hkmem, ⟨hlen, hdig⟩, hcgt⟩ := h1
      obtain ⟨g, r', hdrop, hg, _⟩ := (commaGroupsThen_iff _ _).mp hcgt
      refine ⟨cs.take kk ++ g, r', ?_, cs.take kk, g, [], by simp,
        Or.inl ⟨?_, ?_, hdig, hg⟩, Or.inr rfl⟩
      · conv_lhs => rw [← List.take_append_drop kk cs]
        rw [hdrop, List.append_assoc]
      · have := List.mem_range'.mp hkmem
        omega
      · have := List.mem_range'.mp hkmem
        omega
    · cases cs with
      | nil => cases h2
      | cons c t =>
        simp only [Bool.and_eq_true] at h2
        obtain ⟨hc, hst⟩ := h2
        obtain ⟨y, r', rfl, hy, _⟩ := (starThen_iff _ _ _).mp hst
        exact ⟨c :: y, r', rfl, c :: y, [], [], by simp,
          Or.inr ⟨by simp, by simp [hc, hy], rfl⟩, Or.inr rfl⟩
  · rintro ⟨w, r, rfl, i, g, d, rfl, hig, hdec2⟩
    rcases hig with ⟨hi1, hi3, hidig, hg⟩ | ⟨hi1, hidig, rfl⟩
    · left
      simp only [List.any_eq_true, Bool.and_eq_true, decide_eq_true_eq,
        List.append_assoc]
      refine ⟨i.length, List.mem_range'.mpr ⟨i.length - 1, by omega, by omega⟩, ⟨?_, ?_⟩, ?_⟩
      · rw [List.take_left]
      · rw [List.take_left]
        exact hidig
      · rw [List.drop_left]
        exact (commaGroupsThen_iff _ _).mpr ⟨g, d ++ r, rfl, hg, optTwoDecimalsThen_true _⟩
    · cases i with
      | nil => simp at hi1
      | cons c y =>
        right
        simp only [List.append_nil, List.append_assoc]
        show (isDigitChar c &&
          starThen isDigitChar (optTwoDecimalsThen fun _ => true) (y ++ (d ++ r))) = true
        simp only [List.all_cons, Bool.and_eq_true] at hidig
        rw [Bool.and_eq_true]
        exact ⟨hidig.1,
          (starThen_iff _ _ _).mpr ⟨y, d ++ r, rfl, hidig.2, optTwoDecimalsThen_true _⟩⟩

/-- The composed language of the total-amount label fragment. -/
theorem totalLabelSpec :
    EnumSpec totalLabelE
      (fun w => ∃ t1 t2, w = t1 ++ t2 ∧ lowerStr t1 = lowerStr "total".data ∧
        ∃ t3 t4, t2 = t3 ++ t4 ∧ t3.all isWS = true ∧
          ∃ t5 t6, t4 = t5 ++ t6 ∧
            ((lowerStr t5 = lowerStr "amount".data ∨ lowerStr t5 = lowerStr "due".data) ∨
              t5 = []) ∧
            t6.all isSepChar = true) :=
  enumSpec_thenE (enumSpec_litCIE "total".data)
    (enumSpec_thenE (enumSpec_classStarGreedy isWS)
      (enumSpec_thenE
        (enumSpec_optE (enumSpec_altE (enumSpec_litCIE "amount".data)
          (enumSpec_litCIE "due".data)))
        (enumSpec_classStarGreedy isSepChar)))

/-- Success of the total-amount matcher at a position, characterized as
the existence of a full decomposition: label, optional glyph,
whitespace, then a number token. -/
theorem totalAt_isSome_iff (cs : List Char) :
    (totalAt cs).isSome = true ↔
      ∃ t1 t3 t5 t6 gw t7 w4 r,
        cs = t1 ++ t3 ++ t5 ++ t6 ++ gw ++ t7 ++ w4 ++ r ∧
        lowerStr t1 = lowerStr "total".data ∧
        t3.all isWS = true ∧
        ((lowerStr t5 = lowerStr "amount".data ∨ lowerStr t5 = lowerStr "due".data) ∨
          t5 = []) ∧
        t6.all isSepChar = true ∧
        ((∃ c, gw = [c] ∧ isCurrencyGlyph c = true) ∨ gw = []) ∧
        t7.all isWS = true ∧
        NumberL w4 := by
  rw [totalAt, head?_isSome_iff]
  constructor
  · intro hne
    obtain ⟨x, hx⟩ := List.exists_mem_of_ne_nil _ hne
    obtain ⟨r1, hr1, hx1⟩ := List.mem_flatMap.mp hx
    obtain ⟨wlab, hcs1, t1, t2, rfl, hlow1, t3, t4, rfl, hws3, t5, t6, rfl, h5, hsep6⟩ :=
      (totalLabelSpec cs r1).mp hr1
    obtain ⟨gr, hgr, hx2⟩ := List.mem_flatMap.mp hx1
    obtain ⟨g, r2⟩ := gr
    obtain ⟨r3, hr3, hx3⟩ := List.mem_flatMap.mp hx2
    obtain ⟨t7, rfl, hws7⟩ := (enumSpec_classStarGreedy isWS r2 r3).mp hr3
    obtain ⟨capr, hcapr, _⟩ := List.mem_map.mp hx3
    obtain ⟨w4, r4⟩ := capr
    obtain ⟨rfl, hnum⟩ := (mem_withCap enumSpec_numAltE r3 w4 r4).mp hcapr
    rcases (mem_glyphOptE r1 g _).mp hgr with ⟨c, hgc, hc, hr1eq⟩ | ⟨hgc, hr2eq⟩
    · refine ⟨t1, t3, t5, t6, [c], t7, w4, r4, ?_, hlow1, hws3, h5, hsep6,
        Or.inl ⟨c, rfl, hc⟩, hws7, hnum⟩
      rw [hcs1, hr1eq]
      simp [List.append_assoc]
    · refine ⟨t1, t3, t5, t6, [], t7, w4, r4, ?_, hlow1, hws3, h5, hsep6,
        Or.inr rfl, hws7, hnum⟩
      rw [hcs1, ← hr2eq]
      simp [List.append_assoc]
  · rintro ⟨t1, t3, t5, t6, gw, t7, w4, r, rfl, hlow1, hws3, h5, hsep6, hgw, hws7, hnum⟩
    have hcapmem : (w4, r) ∈ withCap numAltE (w4 ++ r) :=
      (mem_withCap enumSpec_numAltE _ _ _).mpr ⟨rfl, hnum⟩
    rcases hgw with ⟨c, rfl, hc⟩ | rfl
    · apply List.ne_nil_of_mem (a := (some c, w4))
      apply List.mem_flatMap.mpr
      refine ⟨[c] ++ (t7 ++ (w4 ++ r)), ?_, ?_⟩
      · apply (totalLabelSpec _ _).mpr
        refine ⟨t1 ++ (t3 ++ (t5 ++ t6)), ?_,
          t1, t3 ++ (t5 ++ t6), rfl, hlow1,
          t3, t5 ++ t6, rfl, hws3, t5, t6, rfl, h5, hsep6⟩
        simp [List.append_assoc]
      · apply List.mem_flatMap.mpr
        refine ⟨(some c, t7 ++ (w4 ++ r)), ?_, ?_⟩
        · exact (mem_glyphOptE _ _ _).mpr (Or.inl ⟨c, rfl, hc, rfl⟩)
        · apply List.mem_flatMap.mpr
          refine ⟨w4 ++ r, ?_, ?_⟩
          · exact (enumSpec_classStarGreedy isWS _ _).mpr ⟨t7, rfl, hws7⟩
          · exact List.mem_map.mpr ⟨(w4, r), hcapmem, rfl⟩
    · apply List.ne_nil_of_mem (a := ((none : Option Char), w4))
      apply List.mem_flatMap.mpr
      refine ⟨[] ++ (t7 ++ (w4 ++ r)), ?_, ?_⟩
      · apply (totalLabelSpec _ _).mpr
        refine ⟨t1 ++ (t3 ++ (t5 ++ t6)), ?_,
          t1, t3 ++ (t5 ++ t6), rfl, hlow1,
          t3, t5 ++ t6, rfl, hws3, t5, t6, rfl, h5, hsep6⟩
        simp [List.append_assoc]
      · apply List.mem_flatMap.mpr
        refine ⟨((none : Option Char), [] ++ (t7 ++ (w4 ++ r))), ?_, ?_⟩
        · exact (mem_glyphOptE _ _ _).mpr (Or.inr ⟨rfl, rfl⟩)
        · apply List.mem_flatMap.mpr
          refine ⟨w4 ++ r, ?_, ?_⟩
          · exact (enumSpec_classStarGreedy isWS _ _).mpr ⟨t7, by simp, hws7⟩
          · exact List.mem_map.mpr ⟨(w4, r), hcapmem, rfl⟩

/-- C6 counterexample: the code's total-amount rule extracts the value
`5` from the text `total 5`, which contains no two-decimal part — so
the rule does not extract "exactly when" the claimed shape (with its
mandatory two decimal places) is present. -/
theorem C6_counterexample_decimals_optional :
    total_amount_rule "total 5".data = some "5".data ∧
    (extract_invoice_data "total 5".data).total_amount = some "5".data ∧
    specTotalShapeStrict "total 5".data = false := by
  refine ⟨by decide, by decide, by decide⟩

/-- C6 amended: the total-amount rule extracts a value exactly when the
text contains the label `total` (optionally followed by `amount` or
`due`), separator punctuation or whitespace, an optional currency
glyph, whitespace, and a number with optional thousands separators and
an *optional* exactly-two-digit decimal part; and on the claim's
example the captured numeric token is stored verbatim with currency
`USD`. -/
theorem C6_total_amount_rule_shape (text : List Char) :
    ((total_amount_rule text).isSome = true ↔ specTotalShape text = true) ∧
    total_amount_rule "Total Amount: $1,234.56".data = some "1,234.56".data ∧
    currency_rule "Total Amount: $1,234.56".data = some "USD".data := by
  refine ⟨?_, by decide, by decide⟩
  rw [total_amount_rule, isSome_map, reSearch_isSome_iff, specTotalShape, anySuffix_iff]
  constructor
  · rintro ⟨pre, suf, rfl, hsome⟩
    obtain ⟨t1, t3, t5, t6, gw, t7, w4, r, hsuf, hlow1, hws3, h5, hsep6, hgw, hws7, hnum⟩ :=
      (totalAt_isSome_iff suf).mp hsome
    refine ⟨pre, suf, rfl, ?_⟩
    rw [Bool.and_eq_true]
    have hnumAt : numberAt (w4 ++ r) = true := (numberAt_iff _).mpr ⟨w4, r, rfl, hnum⟩
    have hwsnum : starThen isWS numberAt (t7 ++ (w4 ++ r)) = true :=
      (starThen_iff _ _ _).mpr ⟨t7, w4 ++ r, rfl, hws7, hnumAt⟩
    have hgl : optGlyphThen (starThen isWS numberAt) (gw ++ (t7 ++ (w4 ++ r))) = true :=
      (optGlyphThen_iff _ _).mpr ⟨gw, t7 ++ (w4 ++ r), rfl, hgw, hwsnum⟩
    have hsep : totalNumPart (t6 ++ (gw ++ (t7 ++ (w4 ++ r)))) = true := by
      rw [totalNumPart]
      exact (starThen_iff _ _ _).mpr ⟨t6, gw ++ (t7 ++ (w4 ++ r)), rfl, hsep6, hgl⟩
    have hinner : totalAfterLabel (t5 ++ (t6 ++ (gw ++ (t7 ++ (w4 ++ r))))) = true := by
      rw [totalAfterLabel]
      simp only [Bool.or_eq_true, Bool.and_eq_true]
      rcases h5 with (hAm | hDue) | ht5nil
      · have hconj := (ciPrefix_drop_iff "amount".data
            (t5 ++ (t6 ++ (gw ++ (t7 ++ (w4 ++ r)))))
            (fun s => totalNumPart s = true)).mpr ⟨t5, _, rfl, hAm, hsep⟩
        exact Or.inl (Or.inl ⟨hconj.1, hconj.2⟩)
      · have hconj := (ciPrefix_drop_iff "due".data
            (t5 ++ (t6 ++ (gw ++ (t7 ++ (w4 ++ r)))))
            (fun s => totalNumPart s = true)).mpr ⟨t5, _, rfl, hDue, hsep⟩
        exact Or.inl (Or.inr ⟨hconj.1, hconj.2⟩)
      · subst ht5nil
        exact Or.inr hsep
    have hstar : starThen isWS totalAfterLabel
        (t3 ++ (t5 ++ (t6 ++ (gw ++ (t7 ++ (w4 ++ r)))))) = true :=
      (starThen_iff _ _ _).mpr ⟨t3, _, rfl, hws3, hinner⟩
    have hfin := (ciPrefix_drop_iff "total".data suf
        (fun s => starThen isWS totalAfterLabel s = true)).mpr
      ⟨t1, t3 ++ (t5 ++ (t6 ++ (gw ++ (t7 ++ (w4 ++ r))))),
        by rw [hsuf]; simp [List.append_assoc], hlow1, hstar⟩
    exact ⟨hfin.1, hfin.2⟩
  · rintro ⟨pre, suf, rfl, hb⟩
    rw [Bool.and_eq_true] at hb
    obtain ⟨t1, rest, hsufeq, hlow1, hstar⟩ :=
      (ciPrefix_drop_iff "total".data suf
        (fun s => starThen isWS totalAfterLabel s = true)).mp ⟨hb.1, hb.2⟩
    obtain ⟨t3, rest2, rfl, hws3, hinner⟩ := (starThen_iff _ _ _).mp hstar
    rw [totalAfterLabel] at hinner
    simp only [Bool.or_eq_true, Bool.and_eq_true] at hinner
    refine ⟨pre, suf, rfl, ?_⟩
    apply (totalAt_isSome_iff suf).mpr
    rcases hinner with (⟨hAm, hnp⟩ | ⟨hDue, hnp⟩) | hnp
    · obtain ⟨t5, rest3, rfl, hAmount, hnp2⟩ :=
        (ciPrefix_drop_iff "amount".data rest2 (fun s => totalNumPart s = true)).mp
          ⟨hAm, hnp⟩
      obtain ⟨t6, rest4, rfl, hsep6, hgl⟩ := (starThen_iff _ _ _).mp hnp2
      obtain ⟨gw, rest5, rfl, hgw, hwsn⟩ := (optGlyphThen_iff _ _).mp hgl
      obtain ⟨t7, rest6, rfl, hws7, hnAt⟩ := (starThen_iff _ _ _).mp hwsn
      obtain ⟨w4, r, rfl, hnum⟩ := (numberAt_iff _).mp hnAt
      refine ⟨t1, t3, t5, t6, gw, t7, w4, r, ?_, hlow1, hws3,
        Or.inl (Or.inl hAmount), hsep6, hgw, hws7, hnum⟩
      rw [hsufeq]
      simp [List.append_assoc]
    · obtain ⟨t5, rest3, rfl, hDue2, hnp2⟩ :=
        (ciPrefix_drop_iff "due".data rest2 (fun s => totalNumPart s = true)).mp
          ⟨hDue, hnp⟩
      obtain ⟨t6, rest4, rfl, hsep6, hgl⟩ := (starThen_iff _ _ _).mp hnp2
      obtain ⟨gw, rest5, rfl, hgw, hwsn⟩ := (optGlyphThen_iff _ _).mp hgl
      obtain ⟨t7, rest6, rfl, hws7, hnAt⟩ := (starThen_iff _ _ _).mp hwsn
      obtain ⟨w4, r, rfl, hnum⟩ := (numberAt_iff _).mp hnAt
      refine ⟨t1, t3, t5, t6, gw, t7, w4, r, ?_, hlow1, hws3,
        Or.inl (Or.inr hDue2), hsep6, hgw, hws7, hnum⟩
      rw [hsufeq]
      simp [List.append_assoc]
    · obtain ⟨t6, rest4, rfl, hsep6, hgl⟩ := (starThen_iff _ _ _).mp hnp
      obtain ⟨gw, rest5, rfl, hgw, hwsn⟩ := (optGlyphThen_iff _ _).mp hgl
      obtain ⟨t7, rest6, rfl, hws7, hnAt⟩ := (starThen_iff _ _ _).mp hwsn
      obtain ⟨w4, r, rfl, hnum⟩ := (numberAt_iff _).mp hnAt
      refine ⟨t1, t3, [], t6, gw, t7, w4, r, ?_, hlow1, hws3,
        Or.inr rfl, hsep6, hgw, hws7, hnum⟩
      rw [hsufeq]
      simp [List.append_assoc]

/-- Witness for C6 amended: the shape test and the extraction agree on
a concrete text with no decimals. -/
theorem C6_total_amount_rule_shape_witness :
    specTotalShape "Total due: 99 widgets".data = true ∧
    (total_amount_rule "Total due: 99 widgets".data).isSome = true :=
  ⟨by decide,
    (C6_total_amount_rule_shape "Total due: 99 widgets".data).1.mpr (by decide)⟩

end InvoiceAnalyzer
